import Mathlib

/-!
Verification development for the image-color dominant-color extraction core.

The TypeScript sources are shallowly embedded:
* JS numbers are idealised as exact real numbers (`ℝ`); for the purely
  combinatorial peak-detection code the embedding is polymorphic over a
  `LinearOrderedField` so that it can also be run on `ℚ` for concrete
  evaluation.
* pixel buffers are lists of natural numbers (unsigned 8-bit channel values);
* JS array reads `a[i]` are embedded with `List.getD` (default `0`).  An
  out-of-bounds JS read yields `undefined` and poisons the arithmetic with
  `NaN`; every concrete evaluation below only reads in bounds, where the
  embedding agrees with the source exactly.
* `Math.pow(x, n)` with a literal integer exponent is embedded as the
  monomial `x ^ n`; fractional exponents use `Real.rpow`.
-/

open Real

/- ===== Generic helpers (JS built-ins) ===== -/

/-- Embedding of JS `Math.cbrt`: the real cube root, extended to negative
arguments as an odd function, as specified by ECMAScript. -/
noncomputable def cbrt (x : ℝ) : ℝ :=
  if x < 0 then -((-x) ^ ((1 : ℝ) / 3)) else x ^ ((1 : ℝ) / 3)

/-- Embedding of JS `Math.atan2 y x` following the ECMAScript specification
(the result is in the interval from `-π` to `π`; both arguments zero give `0`;
signed zeros do not exist in `ℝ`, so the `-0` cases collapse into this one). -/
noncomputable def atan2 (y x : ℝ) : ℝ :=
  if 0 < x then Real.arctan (y / x)
  else if x < 0 ∧ 0 ≤ y then Real.arctan (y / x) + π
  else if x < 0 ∧ y < 0 then Real.arctan (y / x) - π
  else if x = 0 ∧ 0 < y then π / 2
  else if x = 0 ∧ y < 0 then -(π / 2)
  else 0

/-- Embedding of JS `Math.max(...xs)` on a list.  JS returns `-Infinity` on an
empty spread; the embedding returns `0` there (every use in this development is
on a non-empty, length-360 list, where the two agree). -/
def listMax {α : Type} [LinearOrder α] [Zero α] : List α → α
  | [] => 0
  | x :: xs => xs.foldl max x

/- ===== oklch.ts (src/unnamed/part_002) ===== -/

/-- Embedding of `srgbToLinear` from oklch.ts (inverse sRGB gamma). -/
noncomputable def srgbToLinear (c : ℝ) : ℝ :=
  if c ≤ 0.04045 then c / 12.92 else ((c + 0.055) / 1.055) ^ ((2.4 : ℝ))

/-- Embedding of `rgbToOklch` from oklch.ts: 8-bit RGB to OKLCH, hue in
degrees in the interval from 0 (inclusive) to 360 (exclusive). -/
noncomputable def rgbToOklch (r g b : ℝ) : ℝ × ℝ × ℝ :=
  let rn := r / 255
  let gn := g / 255
  let bn := b / 255
  let lr := srgbToLinear rn
  let lg := srgbToLinear gn
  let lb := srgbToLinear bn
  let l := 0.4122214708 * lr + 0.5363325363 * lg + 0.0514459929 * lb
  let m := 0.2119034982 * lr + 0.6806995451 * lg + 0.1073969566 * lb
  let s := 0.0883024619 * lr + 0.2817188376 * lg + 0.6299787005 * lb
  let l2 := cbrt l
  let m2 := cbrt m
  let s2 := cbrt s
  let L := 0.2104542553 * l2 + 0.7936177850 * m2 - 0.0040720468 * s2
  let a := 1.9779984951 * l2 - 2.4285922050 * m2 + 0.4505937099 * s2
  let bLab := 0.0259040371 * l2 + 0.7827717662 * m2 - 0.8086757660 * s2
  let C := Real.sqrt (a * a + bLab * bLab)
  let H0 := atan2 bLab a * (180 / π)
  let H := if H0 < 0 then H0 + 360 else H0
  (L, C, H)

/- ===== hue-histogram.ts (packages/color-extractor), the smoothstep variant ===== -/

/-- Embedding of `smoothstep` from hue-histogram.ts. -/
noncomputable def smoothstep (edge0 edge1 x : ℝ) : ℝ :=
  let t := max 0 (min 1 ((x - edge0) / (edge1 - edge0)))
  t * t * (3 - 2 * t)

/-- Weight modes of the packages/color-extractor histogram builder. -/
inductive WeightMode where
  | count : WeightMode
  | chroma : WeightMode
deriving DecidableEq

/-- Options of `extractHueHistogram` (hue-histogram.ts) with the source's
defaults. -/
structure ExtractHueHistogramOptions where
  satThreshold : ℝ
  weightMode : WeightMode
  lightnessMargin : ℝ

/-- Source defaults: `satThreshold = 0.02`, `weightMode = "chroma"`,
`lightnessMargin = 0`. -/
noncomputable def defaultHistOptions : ExtractHueHistogramOptions :=
  ⟨0.02, WeightMode.chroma, 0⟩

/-- The `HueHistogram` record of hue-histogram.ts (shared with the
src/unnamed/part_000 variant, whose record has the same shape). -/
structure HueHistogram where
  buckets : List ℝ
  chromaSum : List ℝ
  lightnessSum : List ℝ
  counts : List ℕ
  max : ℝ
  total : ℝ

/-- Mutable accumulation state of the per-pixel scan (the four arrays plus the
running total), before `max` is computed. -/
structure HistAcc where
  buckets : List ℝ
  chromaSum : List ℝ
  lightnessSum : List ℝ
  counts : List ℕ
  total : ℝ

/-- Loop body of `extractHueHistogram` (hue-histogram.ts) for one pixel
`(r,g,b,a)`: skip if alpha is below 200, convert to OKLCH, skip if the
lightness is outside the configured window, then add the mode-dependent weight
into `buckets` and unconditionally accumulate `chromaSum`, `lightnessSum`,
`counts`. -/
noncomputable def huePixelStep (opts : ExtractHueHistogramOptions) (acc : HistAcc)
    (r g b a : ℕ) : HistAcc :=
  if a < 200 then acc
  else
    let lch := rgbToOklch r g b
    let l := lch.1
    let c := lch.2.1
    let h := lch.2.2
    if l < opts.lightnessMargin ∨ l > 1 - opts.lightnessMargin then acc
    else
      let bucket := (⌊h⌋).toNat % 360
      let weight : ℝ :=
        match opts.weightMode with
        | WeightMode.count => 1
        | WeightMode.chroma => smoothstep 0 opts.satThreshold c
      ⟨acc.buckets.set bucket (acc.buckets.getD bucket 0 + weight),
       acc.chromaSum.set bucket (acc.chromaSum.getD bucket 0 + c),
       acc.lightnessSum.set bucket (acc.lightnessSum.getD bucket 0 + l),
       acc.counts.set bucket (acc.counts.getD bucket 0 + 1),
       acc.total + weight⟩

/-- Initial accumulation state: four all-zero length-360 arrays, total 0. -/
noncomputable def histAccInit : HistAcc :=
  ⟨List.replicate 360 0, List.replicate 360 0, List.replicate 360 0,
   List.replicate 360 0, 0⟩

/-- Embedding of `extractHueHistogram` from hue-histogram.ts.  `data` is the
raw RGBA byte buffer, scanned pixel by pixel over `width * height` pixels.
The function performs no validation of `data.length` against
`width * height * 4`. -/
noncomputable def extractHueHistogram (data : List ℕ) (width height : ℕ)
    (opts : ExtractHueHistogramOptions) : HueHistogram :=
  let acc := (List.range (width * height)).foldl
    (fun acc i =>
      let offset := i * 4
      huePixelStep opts acc (data.getD offset 0) (data.getD (offset + 1) 0)
        (data.getD (offset + 2) 0) (data.getD (offset + 3) 0)) histAccInit
  ⟨acc.buckets, acc.chromaSum, acc.lightnessSum, acc.counts,
   listMax acc.buckets, acc.total⟩

/- ===== hue-histogram variant of src/unnamed/part_000 (the minChroma-gate variant) ===== -/

/-- Weight modes of the src/unnamed/part_000 histogram builder. -/
inductive WeightModeP0 where
  | count : WeightModeP0
  | chroma : WeightModeP0
  | chromaLightness : WeightModeP0
deriving DecidableEq

/-- Options of `extractHueHistogram` from src/unnamed/part_000 with the
source's defaults. -/
structure ExtractHueHistogramOptionsP0 where
  minChroma : ℝ
  weightMode : WeightModeP0
  lightnessMargin : ℝ

/-- Source defaults: `minChroma = 0.02`, `weightMode = "chromaLightness"`,
`lightnessMargin = 0`. -/
noncomputable def defaultHistOptionsP0 : ExtractHueHistogramOptionsP0 :=
  ⟨0.02, WeightModeP0.chromaLightness, 0⟩

/-- Loop body of the src/unnamed/part_000 `extractHueHistogram` for one pixel.
Unlike the packages variant, a pixel with chroma below `minChroma` is skipped
entirely (the skip sits before the lightness filter and before every
accumulation). -/
noncomputable def huePixelStepP0 (opts : ExtractHueHistogramOptionsP0) (acc : HistAcc)
    (r g b a : ℕ) : HistAcc :=
  if a < 200 then acc
  else
    let lch := rgbToOklch r g b
    let l := lch.1
    let c := lch.2.1
    let h := lch.2.2
    if c < opts.minChroma then acc
    else if l < opts.lightnessMargin ∨ l > 1 - opts.lightnessMargin then acc
    else
      let bucket := (⌊h⌋).toNat % 360
      let weight : ℝ :=
        match opts.weightMode with
        | WeightModeP0.count => 1
        | WeightModeP0.chroma => c
        | WeightModeP0.chromaLightness => c * max (1 - 2 * |l - 0.5|) 0
      ⟨acc.buckets.set bucket (acc.buckets.getD bucket 0 + weight),
       acc.chromaSum.set bucket (acc.chromaSum.getD bucket 0 + c),
       acc.lightnessSum.set bucket (acc.lightnessSum.getD bucket 0 + l),
       acc.counts.set bucket (acc.counts.getD bucket 0 + 1),
       acc.total + weight⟩

/-- Embedding of `extractHueHistogram` from src/unnamed/part_000.  As in the
packages variant, no validation of `data.length` is performed. -/
noncomputable def extractHueHistogramP0 (data : List ℕ) (width height : ℕ)
    (opts : ExtractHueHistogramOptionsP0) : HueHistogram :=
  let acc := (List.range (width * height)).foldl
    (fun acc i =>
      let offset := i * 4
      huePixelStepP0 opts acc (data.getD offset 0) (data.getD (offset + 1) 0)
        (data.getD (offset + 2) 0) (data.getD (offset + 3) 0)) histAccInit
  ⟨acc.buckets, acc.chromaSum, acc.lightnessSum, acc.counts,
   listMax acc.buckets, acc.total⟩

/- ===== gaussian.ts ===== -/

/-- Kernel radius of `generateGaussianKernel`: `Math.ceil(sigma * 3)`. -/
noncomputable def gaussKernelRadius (sigma : ℝ) : ℤ := ⌈sigma * 3⌉

/-- Embedding of `generateGaussianKernel` from gaussian.ts: raw weights
`exp (-(x * x) / (2 σ²))` for offsets `x = i - radius`, then normalised by the
running sum so the kernel sums to 1. -/
noncomputable def generateGaussianKernel (sigma : ℝ) : List ℝ :=
  let radius := gaussKernelRadius sigma
  let size := (2 * radius + 1).toNat
  let kernel := (List.range size).map (fun (i : ℕ) =>
    Real.exp (-(((i : ℝ) - (radius : ℝ)) * ((i : ℝ) - (radius : ℝ))) / (2 * sigma * sigma)))
  let sum := kernel.sum
  kernel.map (fun v => v / sum)

/-- Raw (pre-modulo) convolution index of the smoothing loop, exactly as the
source computes it: `i + k - radius + len`. -/
def gaussRawIdx (i k radius len : ℤ) : ℤ := i + k - radius + len

/-- Embedding of `gaussianSmoothHistogram` from gaussian.ts.  JS `%` on
integers is `Int.tmod` (the sign follows the dividend).  When the raw index is
negative — reachable as soon as the kernel radius exceeds `len` — the JS code
reads `buckets` outside its bounds (`undefined`, which poisons the sums with
`NaN`); the embedding totalises that read with `List.getD` and default `0`.
The development only states positive results in the in-bounds regime and
records the out-of-bounds regime as a code defect. -/
noncomputable def gaussianSmoothHistogram (buckets : List ℝ) (sigma : ℝ) : List ℝ :=
  if sigma ≤ 0 then buckets
  else
    let kernel := generateGaussianKernel sigma
    let radius := kernel.length / 2
    let len := buckets.length
    (List.range len).map (fun i =>
      (List.range kernel.length).foldl (fun (sum : ℝ) (k : ℕ) =>
        let idx := (gaussRawIdx (i : ℤ) (k : ℤ) (radius : ℤ) (len : ℤ)).tmod (len : ℤ)
        sum + buckets.getD idx.toNat 0 * kernel.getD k 0) 0)

/- ===== peaks.ts ===== -/

/-- The `Peak` record of peaks.ts: index of the local maximum, its bucket
value, and the inclusive arc boundaries (`right < left` signals wraparound). -/
structure Peak (α : Type) where
  index : ℕ
  value : α
  left : ℕ
  right : ℕ
deriving DecidableEq

/-- Options of `detectPeaks` (source default `minHeight = 0.1`). -/
structure DetectPeaksOptions (α : Type) where
  minHeight : α

/-- Source default options of `detectPeaks`. -/
def defaultDetectPeaksOptions {α : Type} [LinearOrderedField α] : DetectPeaksOptions α :=
  ⟨0.1⟩

/-- Fuel-indexed rendering of the left-boundary for-loop of peaks.ts.  The
loop runs `i = 1, 2, ...` while `i < len / 2`; at each step it visits
`idx = (index - i + len) % len` and stops with `left = (idx + 1) % len` as
soon as `buckets[idx] >= buckets[(idx + 1) % len]`, otherwise records
`left = idx` and keeps scanning.  Called with `fuel = buckets.length`, which
strictly exceeds the maximal number of iterations, so the fuel never runs
out. -/
def leftScanGo {α : Type} [LinearOrderedField α] (buckets : List α) (index : ℕ) :
    ℕ → ℕ → ℕ → ℕ
  | 0, _, left => left
  | fuel + 1, i, left =>
    let len := buckets.length
    if 2 * i < len then
      let idx := (index + len - i) % len
      if buckets.getD ((idx + 1) % len) 0 ≤ buckets.getD idx 0 then (idx + 1) % len
      else leftScanGo buckets index fuel (i + 1) idx
    else left

/-- Left boundary of a peak (the "descend until valley" scan of peaks.ts). -/
def leftBoundary {α : Type} [LinearOrderedField α] (buckets : List α) (index : ℕ) : ℕ :=
  leftScanGo buckets index buckets.length 1 index

/-- Fuel-indexed rendering of the right-boundary for-loop of peaks.ts, the
mirror image of `leftScanGo`: visits `idx = (index + i) % len` and stops with
`right = (idx - 1 + len) % len` as soon as
`buckets[idx] >= buckets[(idx - 1 + len) % len]`. -/
def rightScanGo {α : Type} [LinearOrderedField α] (buckets : List α) (index : ℕ) :
    ℕ → ℕ → ℕ → ℕ
  | 0, _, right => right
  | fuel + 1, i, right =>
    let len := buckets.length
    if 2 * i < len then
      let idx := (index + i) % len
      if buckets.getD ((idx + len - 1) % len) 0 ≤ buckets.getD idx 0 then (idx + len - 1) % len
      else rightScanGo buckets index fuel (i + 1) idx
    else right

/-- Right boundary of a peak. -/
def rightBoundary {α : Type} [LinearOrderedField α] (buckets : List α) (index : ℕ) : ℕ :=
  rightScanGo buckets index buckets.length 1 index

/-- Stable insertion into a list sorted descending by `value`: the new element
goes after every element whose value is greater or equal, which reproduces the
JS stable `Array.prototype.sort` with comparator `(a, b) => b.value - a.value`
on the candidate list. -/
def insertByValueDesc {α : Type} [LinearOrderedField α] (p : Peak α) :
    List (Peak α) → List (Peak α)
  | [] => [p]
  | q :: qs => if p.value ≤ q.value then q :: insertByValueDesc p qs else p :: q :: qs

/-- Stable sort, descending by `value` (insertion sort). -/
def sortByValueDesc {α : Type} [LinearOrderedField α] : List (Peak α) → List (Peak α)
  | [] => []
  | p :: ps => insertByValueDesc p (sortByValueDesc ps)

/-- The candidate-peak test of peaks.ts at bucket `i`: a strict local maximum
(with circular neighbours) whose value reaches `max(buckets) * minHeight`
(non-strict). -/
def isPeakAt {α : Type} [LinearOrderedField α] (buckets : List α) (minHeight : α)
    (i : ℕ) : Prop :=
  buckets.getD ((i + buckets.length - 1) % buckets.length) 0 < buckets.getD i 0 ∧
  buckets.getD ((i + 1) % buckets.length) 0 < buckets.getD i 0 ∧
  listMax buckets * minHeight ≤ buckets.getD i 0

instance {α : Type} [LinearOrderedField α] (buckets : List α) (minHeight : α) (i : ℕ) :
    Decidable (isPeakAt buckets minHeight i) := by
  unfold isPeakAt; infer_instance

/-- Embedding of `detectPeaks` from peaks.ts: collect candidate local maxima
above the relative threshold, attach valley-to-valley boundaries, and sort by
value descending (stably). -/
def detectPeaks {α : Type} [LinearOrderedField α] (buckets : List α)
    (opts : DetectPeaksOptions α) : List (Peak α) :=
  let len := buckets.length
  let candidates := (List.range len).filterMap (fun i =>
    if isPeakAt buckets opts.minHeight i then
      some (⟨i, buckets.getD i 0, i, i⟩ : Peak α)
    else none)
  let withBounds := candidates.map (fun p =>
    ⟨p.index, p.value, leftBoundary buckets p.index, rightBoundary buckets p.index⟩)
  sortByValueDesc withBounds

/- ===== extract-peak-colors.ts: colour-space utilities ===== -/

/-- Embedding of `linearToSrgb` from extract-peak-colors.ts (forward sRGB
gamma). -/
noncomputable def linearToSrgb (c : ℝ) : ℝ :=
  if c ≤ 0.0031308 then 12.92 * c else 1.055 * c ^ ((1 : ℝ) / 2.4) - 0.055

/-- Embedding of `oklchToSrgb` from extract-peak-colors.ts: OKLCH to sRGB with
each channel clamped into the unit interval. -/
noncomputable def oklchToSrgb (L C H : ℝ) : ℝ × ℝ × ℝ :=
  let hRad := H * π / 180
  let a := C * Real.cos hRad
  let b := C * Real.sin hRad
  let l2 := L + 0.3963377774 * a + 0.2158037573 * b
  let m2 := L - 0.1055613458 * a - 0.0638541728 * b
  let s2 := L - 0.0894841775 * a - 1.291485548 * b
  let l := l2 * l2 * l2
  let m := m2 * m2 * m2
  let s := s2 * s2 * s2
  let lr := 4.0767416621 * l - 3.3077115913 * m + 0.2309699292 * s
  let lg := -1.2684380046 * l + 2.6097574011 * m - 0.3413193965 * s
  let lb := -0.0041960863 * l - 0.7034186147 * m + 1.707614701 * s
  (max 0 (min 1 (linearToSrgb lr)),
   max 0 (min 1 (linearToSrgb lg)),
   max 0 (min 1 (linearToSrgb lb)))

/-- The inline `toLinear` helper of `srgbToXyz` (inverse sRGB gamma). -/
noncomputable def srgbChannelToLinear (c : ℝ) : ℝ :=
  if c ≤ 0.04045 then c / 12.92 else ((c + 0.055) / 1.055) ^ ((2.4 : ℝ))

/-- Embedding of `srgbToXyz` from extract-peak-colors.ts (D65). -/
noncomputable def srgbToXyz (r g b : ℝ) : ℝ × ℝ × ℝ :=
  let lr := srgbChannelToLinear r
  let lg := srgbChannelToLinear g
  let lb := srgbChannelToLinear b
  (0.4124564 * lr + 0.3575761 * lg + 0.1804375 * lb,
   0.2126729 * lr + 0.7151522 * lg + 0.072175 * lb,
   0.0193339 * lr + 0.119192 * lg + 0.9503041 * lb)

/-- The inline piecewise transfer `f` of `xyzToLab`. -/
noncomputable def labF (t : ℝ) : ℝ :=
  if t > 0.008856 then cbrt t else 7.787 * t + 16 / 116

/-- Embedding of `xyzToLab` from extract-peak-colors.ts (D65 white point). -/
noncomputable def xyzToLab (x y z : ℝ) : ℝ × ℝ × ℝ :=
  let fx := labF (x / 0.95047)
  let fy := labF (y / 1.0)
  let fz := labF (z / 1.08883)
  (116 * fy - 16, 500 * (fx - fy), 200 * (fy - fz))

/-- Embedding of `oklchToLab`: OKLCH through sRGB and XYZ to CIE Lab. -/
noncomputable def oklchToLab (L C H : ℝ) : ℝ × ℝ × ℝ :=
  let rgb := oklchToSrgb L C H
  let xyz := srgbToXyz rgb.1 rgb.2.1 rgb.2.2
  xyzToLab xyz.1 xyz.2.1 xyz.2.2

/- ===== extract-peak-colors.ts: CIEDE2000.  The source is one function of
local constants; each `const` is translated, in source order, into a named
helper so the assembled `deltaE2000` mirrors the source line by line. ===== -/

/-- Lab chroma `Math.sqrt(a * a + b * b)` (the `C1`, `C2`, `C1p`, `C2p`
lines). -/
noncomputable def labChroma (a b : ℝ) : ℝ := Real.sqrt (a * a + b * b)

/-- The `G` weighting factor from the mean chroma. -/
noncomputable def de2kG (Cavg : ℝ) : ℝ :=
  0.5 * (1 - Real.sqrt (Cavg ^ 7 / (Cavg ^ 7 + 25 ^ 7)))

/-- Adjusted hue angle `h'` in degrees, normalised into `[0, 360)` (the `h1p`,
`h2p` lines, including the `+ 360` fix-up). -/
noncomputable def de2kHue (b ap : ℝ) : ℝ :=
  let h := atan2 b ap * (180 / π)
  if h < 0 then h + 360 else h

/-- The hue difference `dhp` with the 360-degree wrap rule; zero when either
adjusted chroma is zero. -/
noncomputable def de2kDhp (C1p C2p h1p h2p : ℝ) : ℝ :=
  if C1p * C2p = 0 then 0
  else
    let diff := h2p - h1p
    if diff > 180 then diff - 360 else if diff < -180 then diff + 360 else diff

/-- The mean hue `hp` with the 360-degree wrap disambiguation. -/
noncomputable def de2kHbar (C1p C2p h1p h2p : ℝ) : ℝ :=
  if C1p * C2p = 0 then h1p + h2p
  else if |h1p - h2p| ≤ 180 then (h1p + h2p) / 2
  else if h1p + h2p < 360 then (h1p + h2p + 360) / 2
  else (h1p + h2p - 360) / 2

/-- The `T` weighting term. -/
noncomputable def de2kT (hp : ℝ) : ℝ :=
  1 - 0.17 * Real.cos ((hp - 30) * (π / 180)) + 0.24 * Real.cos (2 * hp * (π / 180)) +
    0.32 * Real.cos ((3 * hp + 6) * (π / 180)) - 0.2 * Real.cos ((4 * hp - 63) * (π / 180))

/-- Embedding of `deltaE2000` from extract-peak-colors.ts with
`kL = kC = kH = 1`. -/
noncomputable def deltaE2000 (L1 a1 b1 L2 a2 b2 : ℝ) : ℝ :=
  let C1 := labChroma a1 b1
  let C2 := labChroma a2 b2
  let Cavg := (C1 + C2) / 2
  let G := de2kG Cavg
  let a1p := a1 * (1 + G)
  let a2p := a2 * (1 + G)
  let C1p := labChroma a1p b1
  let C2p := labChroma a2p b2
  let h1p := de2kHue b1 a1p
  let h2p := de2kHue b2 a2p
  let dLp := L2 - L1
  let dCp := C2p - C1p
  let dhp := de2kDhp C1p C2p h1p h2p
  let dHp := 2 * Real.sqrt (C1p * C2p) * Real.sin (dhp / 2 * (π / 180))
  let Lp := (L1 + L2) / 2
  let Cp := (C1p + C2p) / 2
  let hp := de2kHbar C1p C2p h1p h2p
  let T := de2kT hp
  let dTheta := 30 * Real.exp (-(((hp - 275) / 25) ^ 2))
  let RC := 2 * Real.sqrt (Cp ^ 7 / (Cp ^ 7 + 25 ^ 7))
  let SL := 1 + 0.015 * (Lp - 50) ^ 2 / Real.sqrt (20 + (Lp - 50) ^ 2)
  let SC := 1 + 0.045 * Cp
  let SH := 1 + 0.015 * Cp * T
  let RT := -Real.sin (2 * dTheta * (π / 180)) * RC
  Real.sqrt ((dLp / (1 * SL)) ^ 2 + (dCp / (1 * SC)) ^ 2 + (dHp / (1 * SH)) ^ 2 +
    RT * (dCp / (1 * SC)) * (dHp / (1 * SH)))

/- ===== extract-peak-colors.ts: main types and functions ===== -/

/-- Colour extraction mode. -/
inductive ColorMode where
  | peak : ColorMode
  | average : ColorMode
deriving DecidableEq

/-- The `PeakColor` record.  The `cssColor` string of the source is
presentation-only formatting (`toFixed` of the three components); it is
modelled as the numeric triple `(lightness, chroma, hue)` it formats. -/
structure PeakColor where
  hue : ℝ
  chroma : ℝ
  lightness : ℝ
  weight : ℝ
  cssColor : ℝ × ℝ × ℝ
  peak : Peak ℝ

/-- Options of `extractPeakColors` (defaults: `threshold = 0`,
`maxColors = 5`, `minDistance = 0`; `mode` is required). -/
structure ExtractPeakColorsOptions where
  mode : ColorMode
  threshold : ℝ
  maxColors : ℕ
  minDistance : ℝ

/-- Embedding of `getPeakIndices`: the bucket indices of a peak's arc,
splitting into two runs when the arc wraps around 0. -/
def getPeakIndices {α : Type} (p : Peak α) : List ℕ :=
  if p.left ≤ p.right then List.range' p.left (p.right + 1 - p.left)
  else List.range' p.left (360 - p.left) ++ List.range' 0 (p.right + 1)

/-- Embedding of `calculatePeakWeight`: sum of the bucket values over the
peak's arc. -/
noncomputable def calculatePeakWeight (buckets : List ℝ) (p : Peak ℝ) : ℝ :=
  (getPeakIndices p).foldl (fun w idx => w + buckets.getD idx 0) 0

/-- Embedding of `colorDistance`: CIEDE2000 between two OKLCH colours after
conversion to Lab. -/
noncomputable def colorDistance (c1 c2 : PeakColor) : ℝ :=
  let lab1 := oklchToLab c1.lightness c1.chroma c1.hue
  let lab2 := oklchToLab c2.lightness c2.chroma c2.hue
  deltaE2000 lab1.1 lab1.2.1 lab1.2.2 lab2.1 lab2.2.1 lab2.2.2

/-- Outcome of the inner scan of `filterByDistance` over the accepted list:
append the candidate, drop it, or replace the accepted colour at an index. -/
inductive ScanOutcome where
  | add : ScanOutcome
  | drop : ScanOutcome
  | replace : ℕ → ScanOutcome

/-- The inner for-loop of `filterByDistance`: find the first accepted colour
within `minDistance` of the candidate; if the candidate has strictly higher
chroma the accepted colour is replaced, otherwise the candidate is dropped;
if no accepted colour is close, the candidate is appended. -/
noncomputable def filterScan (minDistance : ℝ) (color : PeakColor) :
    List PeakColor → ScanOutcome
  | [] => ScanOutcome.add
  | c :: rest =>
    if colorDistance color c < minDistance then
      if c.chroma < color.chroma then ScanOutcome.replace 0 else ScanOutcome.drop
    else
      match filterScan minDistance color rest with
      | ScanOutcome.replace i => ScanOutcome.replace (i + 1)
      | o => o

/-- The outer for-loop of `filterByDistance`, carrying the accepted list. -/
noncomputable def filterLoop (minDistance : ℝ) :
    List PeakColor → List PeakColor → List PeakColor
  | acc, [] => acc
  | acc, color :: rest =>
    match filterScan minDistance color acc with
    | ScanOutcome.add => filterLoop minDistance (acc ++ [color]) rest
    | ScanOutcome.drop => filterLoop minDistance acc rest
    | ScanOutcome.replace i => filterLoop minDistance (acc.set i color) rest

/-- Embedding of `filterByDistance`: greedy first-match merge keeping the
higher-chroma colour; skipped entirely when `minDistance ≤ 0` or fewer than
two candidates. -/
noncomputable def filterByDistance (colors : List PeakColor) (minDistance : ℝ) :
    List PeakColor :=
  if minDistance ≤ 0 ∨ colors.length ≤ 1 then colors
  else filterLoop minDistance [] colors

/-- Accumulator of the average-mode loop of `extractPeakColors`. -/
structure AvgAcc where
  totalWeight : ℝ
  hueX : ℝ
  hueY : ℝ
  chromaWeighted : ℝ
  lightnessWeighted : ℝ

/-- One bucket of the average-mode loop: skip when the bucket has no sampled
pixels or its smoothed value is below the threshold, otherwise accumulate the
circular-mean vector and the weighted chroma/lightness means. -/
noncomputable def avgStep (histogram : HueHistogram) (smoothedBuckets : List ℝ)
    (minValue : ℝ) (acc : AvgAcc) (idx : ℕ) : AvgAcc :=
  let count := histogram.counts.getD idx 0
  if count = 0 then acc
  else
    let bucketValue := smoothedBuckets.getD idx 0
    if bucketValue < minValue then acc
    else
      let w := bucketValue
      let avgChroma := histogram.chromaSum.getD idx 0 / count
      let avgLightness := histogram.lightnessSum.getD idx 0 / count
      let rad := (idx : ℝ) * π / 180
      ⟨acc.totalWeight + w,
       acc.hueX + Real.cos rad * w,
       acc.hueY + Real.sin rad * w,
       acc.chromaWeighted + avgChroma * w,
       acc.lightnessWeighted + avgLightness * w⟩

/-- Clamping and record construction shared by both modes of
`extractPeakColors` (the post-processing lines after the mode branch). -/
noncomputable def mkPeakColor (hue chroma lightness weight : ℝ) (p : Peak ℝ) :
    PeakColor :=
  let lightness2 := max 0 (min 1 lightness)
  let chroma2 := max 0 (min 0.4 chroma)
  ⟨hue, chroma2, lightness2, weight, (lightness2, chroma2, hue), p⟩

/-- Resolution of a single peak (the per-peak body of `extractPeakColors`);
`none` models the source's `continue`. -/
noncomputable def resolvePeakColor (histogram : HueHistogram)
    (smoothedBuckets : List ℝ) (opts : ExtractPeakColorsOptions) (p : Peak ℝ) :
    Option PeakColor :=
  let weight := calculatePeakWeight smoothedBuckets p
  match opts.mode with
  | ColorMode.peak =>
    let count := histogram.counts.getD p.index 0
    if count = 0 then none
    else
      some (mkPeakColor (p.index : ℝ)
        (histogram.chromaSum.getD p.index 0 / count)
        (histogram.lightnessSum.getD p.index 0 / count) weight p)
  | ColorMode.average =>
    let minValue := smoothedBuckets.getD p.index 0 * opts.threshold
    let acc := (getPeakIndices p).foldl
      (avgStep histogram smoothedBuckets minValue) ⟨0, 0, 0, 0, 0⟩
    if acc.totalWeight ≤ 0 then none
    else
      let hue0 := atan2 acc.hueY acc.hueX * (180 / π)
      let hue := if hue0 < 0 then hue0 + 360 else hue0
      some (mkPeakColor hue (acc.chromaWeighted / acc.totalWeight)
        (acc.lightnessWeighted / acc.totalWeight) weight p)

/-- Stable insertion into a list sorted descending by `weight` (the JS stable
sort with comparator `(a, b) => b.weight - a.weight`). -/
noncomputable def insertByWeightDesc (c : PeakColor) :
    List PeakColor → List PeakColor
  | [] => [c]
  | d :: ds => if c.weight ≤ d.weight then d :: insertByWeightDesc c ds else c :: d :: ds

/-- Stable sort of resolved colours, descending by `weight`. -/
noncomputable def sortByWeightDesc : List PeakColor → List PeakColor
  | [] => []
  | c :: cs => insertByWeightDesc c (sortByWeightDesc cs)

/-- Embedding of `extractPeakColors`: resolve each peak, sort by weight
descending, merge by perceptual distance, truncate to `maxColors`. -/
noncomputable def extractPeakColors (histogram : HueHistogram)
    (peaks : List (Peak ℝ)) (smoothedBuckets : List ℝ)
    (opts : ExtractPeakColorsOptions) : List PeakColor :=
  let results := peaks.filterMap (resolvePeakColor histogram smoothedBuckets opts)
  let sorted := sortByWeightDesc results
  let filtered := filterByDistance sorted opts.minDistance
  filtered.take opts.maxColors

/- ===== Claim-language definitions (used to state properties, not taken from
the source) ===== -/

/-- Circular distance in degrees between two hue angles whose difference lies
within plus-minus 360 degrees (formalises the claims' circular distance). -/
noncomputable def circHueDist (x y : ℝ) : ℝ := min |x - y| (360 - |x - y|)

/-- Width in buckets of a peak's arc from `left` to `right`, counting
wraparound when `right < left` (claim language). -/
def arcWidth {α : Type} (p : Peak α) : ℕ := (p.right + 360 - p.left) % 360

/-- Containment of bucket `j` in a peak's arc, measured as an offset from
`left` along the positive direction (claim language). -/
def arcContains {α : Type} (p : Peak α) (j : ℕ) : Prop :=
  (j + 360 - p.left) % 360 ≤ arcWidth p

/-- Bucket index at outward distance `j` to the left of `index` on the
360-ring (claim language, used to state the boundary-scan
characterisation). -/
def leftIdx (index j : ℕ) : ℕ := (index + 360 - j) % 360

/-- Bucket index at outward distance `j` to the right of `index` on the
360-ring (claim language). -/
def rightIdx (index j : ℕ) : ℕ := (index + j) % 360

/-- Concrete 360-bucket example: a single spike of height 1 at bucket 1
(used to evaluate the peak-detection theorems on concrete data). -/
def spikeBuckets : List ℚ := (List.replicate 360 0).set 1 1

/-- Concrete peak for the average-mode hue analysis: index 0, arc from 0 to
10. -/
def peakC4 : Peak ℝ := ⟨0, 1, 0, 10⟩

/-- Concrete counts: a single sampled bucket at hue 10. -/
def countsC4 : List ℕ := (List.replicate 360 0).set 10 1

/-- Concrete histogram whose only sampled bucket is 10 (average chroma 1/5,
average lightness 1/2 there). -/
noncomputable def histC4 : HueHistogram :=
  ⟨(List.replicate 360 0).set 10 1, (List.replicate 360 0).set 10 (1 / 5),
   (List.replicate 360 0).set 10 (1 / 2), countsC4, 1, 1⟩

/-- Concrete smoothed buckets with value 1 at bucket 10. -/
noncomputable def smoothC4 : List ℝ := (List.replicate 360 0).set 10 1

/-- Average-mode options: threshold 0, maxColors 5, minDistance 0. -/
noncomputable def optsC4 : ExtractPeakColorsOptions := ⟨ColorMode.average, 0, 5, 0⟩

/-- A placeholder originating peak for concrete `PeakColor` values (the
distance filter never inspects it). -/
def dummyPeak : Peak ℝ := ⟨0, 1, 0, 10⟩

/-- Concrete resolved colour: OKLCH white (lightness 1, chroma 0). -/
noncomputable def colA : PeakColor := ⟨0, 0, 1, 3, (1, 0, 0), dummyPeak⟩

/-- Concrete resolved colour: OKLCH black (lightness 0, chroma 0). -/
noncomputable def colB : PeakColor := ⟨0, 0, 0, 2, (0, 0, 0), dummyPeak⟩

/-- Concrete resolved colour: a muted mid-lightness green
(hue 90, chroma 0.01, lightness 0.58). -/
noncomputable def colC : PeakColor :=
  ⟨90, 0.01, 0.58, 1, (0.58, 0.01, 90), dummyPeak⟩

/- ########## PART B: lemmas and claim theorems ########## -/

lemma listMax_replicate_zero {α : Type} [LinearOrder α] [Zero α] (n : ℕ) :
    listMax (List.replicate n (0 : α)) = 0 := by
  cases n with
  | zero => rfl
  | succ m =>
    simp only [List.replicate_succ, listMax]
    induction m with
    | zero => rfl
    | succ k ih => simpa [List.replicate_succ, max_self] using ih

lemma getD_replicate {α : Type} (n i : ℕ) (d : α) :
    (List.replicate n d).getD i d = d := by
  rcases lt_or_le i n with h | h
  · rw [List.getD_eq_getElem _ _ (by simpa using h)]
    simp
  · exact List.getD_eq_default _ _ (by simpa using h)

lemma getD_set_self {α : Type} (l : List α) (j : ℕ) (x : α) (d : α) (hj : j < l.length) :
    (l.set j x).getD j d = x := by
  rw [List.getD_eq_getElem _ _ (by simpa using hj)]
  simp [List.getElem_set_self]

lemma getD_set_ne {α : Type} (l : List α) (i j : ℕ) (x : α) (d : α) (h : i ≠ j) :
    (l.set j x).getD i d = l.getD i d := by
  rcases lt_or_le i l.length with hi | hi
  · rw [List.getD_eq_getElem _ _ (by simpa using hi),
      List.getD_eq_getElem _ _ (by simpa using hi)]
    exact List.getElem_set_of_ne (by omega) _ _
  · rw [List.getD_eq_default _ _ (by simpa using hi),
      List.getD_eq_default _ _ (by simpa using hi)]

lemma getD_set_replicate {α : Type} (n i j : ℕ) (d x : α) (hj : j < n) (hi : i < n) :
    ((List.replicate n d).set j x).getD i d = if i = j then x else d := by
  rcases eq_or_ne i j with rfl | h
  · rw [if_pos rfl]
    exact getD_set_self _ _ _ _ (by simpa using hj)
  · rw [if_neg h, getD_set_ne _ _ _ _ _ h, getD_replicate]

lemma cbrt_zero : cbrt 0 = 0 := by
  simp only [cbrt]
  rw [if_neg (by norm_num)]
  exact Real.zero_rpow (by norm_num)

lemma atan2_zero_zero : atan2 0 0 = 0 := by
  simp only [atan2]
  norm_num

/-- A fully black, fully opaque pixel maps to OKLCH `(0, 0, 0)`: every stage of
the conversion is exactly zero. -/
lemma rgbToOklch_black : rgbToOklch 0 0 0 = (0, 0, 0) := by
  simp only [rgbToOklch, srgbToLinear]
  norm_num [cbrt_zero, atan2_zero_zero]

lemma getD_replicate_of_lt {α : Type} (n i : ℕ) (d e : α) (h : i < n) :
    (List.replicate n d).getD i e = d := by
  rw [List.getD_eq_getElem _ _ (by simpa using h)]
  simp

/-- Claim C8: for every bucket sequence and every sigma ≤ 0, smoothing returns
a sequence element-wise equal to the input (identity law); a negative sigma is
clamped to identity smoothing rather than rejected. -/
theorem c8_smooth_nonpos_sigma_identity (buckets : List ℝ) (sigma : ℝ)
    (h : sigma ≤ 0) : gaussianSmoothHistogram buckets sigma = buckets := by
  simp [gaussianSmoothHistogram, h]

/-- Witness for C8: identity smoothing at the concrete sigma -1. -/
theorem c8_smooth_nonpos_sigma_identity_witness :
    gaussianSmoothHistogram [1, 2, 3] (-1) = [1, 2, 3] :=
  c8_smooth_nonpos_sigma_identity [1, 2, 3] (-1) (by norm_num)

/-- Claim C10: a perfectly flat 360-bucket histogram (any constant value,
including a non-zero one) yields zero detected peaks, because the
local-maximum test is strict on both sides; and an empty peak list resolves
downstream to zero colours. -/
theorem c10_flat_histogram_no_peaks :
    (∀ (c : ℚ) (opts : DetectPeaksOptions ℚ),
      detectPeaks (List.replicate 360 c) opts = []) ∧
    (∀ (hist : HueHistogram) (sm : List ℝ) (opts : ExtractPeakColorsOptions),
      extractPeakColors hist [] sm opts = []) := by
  constructor
  · intro c opts
    have hcand : ∀ i ∈ List.range (List.replicate 360 c).length,
        (if isPeakAt (List.replicate 360 c) opts.minHeight i then
          some (⟨i, (List.replicate 360 c).getD i 0, i, i⟩ : Peak ℚ)
        else none) = none := by
      intro i hi
      rw [List.length_replicate, List.mem_range] at hi
      rw [if_neg]
      rintro ⟨h1, -, -⟩
      rw [List.length_replicate] at h1
      rw [getD_replicate_of_lt _ _ _ _ (Nat.mod_lt _ (by norm_num)),
        getD_replicate_of_lt _ _ _ _ hi] at h1
      exact lt_irrefl _ h1
    simp only [detectPeaks]
    rw [List.filterMap_eq_nil_iff.mpr hcand]
    rfl
  · intro hist sm opts
    simp [extractPeakColors, sortByWeightDesc, filterByDistance]

/-- Helper: the kernel radius at sigma = 121 is 363 (which exceeds the ring
length 360). -/
lemma gaussKernelRadius_121 : gaussKernelRadius 121 = 363 := by
  have h : ((121 : ℝ) * 3) = ((363 : ℤ) : ℝ) := by norm_num
  rw [gaussKernelRadius, h, Int.ceil_intCast]

/-- Helper: the kernel radius at sigma = 130 is 390. -/
lemma gaussKernelRadius_130 : gaussKernelRadius 130 = 390 := by
  have h : ((130 : ℝ) * 3) = ((390 : ℤ) : ℝ) := by norm_num
  rw [gaussKernelRadius, h, Int.ceil_intCast]

/-- Claim C7 (code defect): at sigma = 121 the generated kernel has radius
363 > 360, and at output bucket i = 0, kernel position k = 0 the raw
convolution index is 0 + 0 - 363 + 360 = -3; JS remainder keeps the sign of
the dividend, so the code reads `buckets[-3]` — outside the array — and the
smoothed values are poisoned, so total mass is not preserved for this sigma. -/
theorem c7_smoothing_oob_read_sigma121 :
    (generateGaussianKernel 121).length / 2 = 363 ∧
    gaussRawIdx 0 0 363 360 = -3 ∧ (gaussRawIdx 0 0 363 360).tmod 360 < 0 := by
  refine ⟨?_, by decide, by decide⟩
  rw [generateGaussianKernel]
  rw [List.length_map, List.length_map, List.length_range, gaussKernelRadius_121]
  decide

/-- Claim C9 (code defect, same root cause as C7): at sigma = 130 the kernel
radius is 390 > 360 and the raw convolution index at i = 0, k = 0 is -30;
JS remainder keeps it negative, the code reads `buckets[-30]` outside the
array, and the smoothed value at bucket 0 is NaN — not between the input's
minimum and maximum. -/
theorem c9_smoothing_oob_read_sigma130 :
    (generateGaussianKernel 130).length / 2 = 390 ∧
    gaussRawIdx 0 0 390 360 = -30 ∧ (gaussRawIdx 0 0 390 360).tmod 360 < 0 := by
  refine ⟨?_, by decide, by decide⟩
  rw [generateGaussianKernel]
  rw [List.length_map, List.length_map, List.length_range, gaussKernelRadius_130]
  decide

/-- Helper: one pixel step preserves the lengths of all four accumulation
arrays. -/
lemma huePixelStep_lengths (opts : ExtractHueHistogramOptions) (acc : HistAcc)
    (r g b a : ℕ) :
    (huePixelStep opts acc r g b a).buckets.length = acc.buckets.length ∧
    (huePixelStep opts acc r g b a).chromaSum.length = acc.chromaSum.length ∧
    (huePixelStep opts acc r g b a).lightnessSum.length = acc.lightnessSum.length ∧
    (huePixelStep opts acc r g b a).counts.length = acc.counts.length := by
  rw [huePixelStep]
  rcases lt_or_le a 200 with h | h
  · rw [if_pos h]
    exact ⟨rfl, rfl, rfl, rfl⟩
  · rw [if_neg (by omega)]
    by_cases hl : (rgbToOklch r g b).1 < opts.lightnessMargin ∨
        (rgbToOklch r g b).1 > 1 - opts.lightnessMargin
    · rw [if_pos hl]
      exact ⟨rfl, rfl, rfl, rfl⟩
    · rw [if_neg hl]
      simp

/-- Helper: the pixel fold of `extractHueHistogram` preserves the lengths of
the four accumulation arrays. -/
lemma histFold_lengths (data : List ℕ) (opts : ExtractHueHistogramOptions)
    (l : List ℕ) (acc : HistAcc) :
    ((l.foldl (fun acc i =>
        let offset := i * 4
        huePixelStep opts acc (data.getD offset 0) (data.getD (offset + 1) 0)
          (data.getD (offset + 2) 0) (data.getD (offset + 3) 0)) acc).buckets.length
      = acc.buckets.length ∧
     (l.foldl (fun acc i =>
        let offset := i * 4
        huePixelStep opts acc (data.getD offset 0) (data.getD (offset + 1) 0)
          (data.getD (offset + 2) 0) (data.getD (offset + 3) 0)) acc).chromaSum.length
      = acc.chromaSum.length ∧
     (l.foldl (fun acc i =>
        let offset := i * 4
        huePixelStep opts acc (data.getD offset 0) (data.getD (offset + 1) 0)
          (data.getD (offset + 2) 0) (data.getD (offset + 3) 0)) acc).lightnessSum.length
      = acc.lightnessSum.length ∧
     (l.foldl (fun acc i =>
        let offset := i * 4
        huePixelStep opts acc (data.getD offset 0) (data.getD (offset + 1) 0)
          (data.getD (offset + 2) 0) (data.getD (offset + 3) 0)) acc).counts.length
      = acc.counts.length) := by
  induction l generalizing acc with
  | nil => exact ⟨rfl, rfl, rfl, rfl⟩
  | cons x xs ih =>
    simp only [List.foldl_cons]
    obtain ⟨h1, h2, h3, h4⟩ := ih (huePixelStep opts acc (data.getD (x * 4) 0)
      (data.getD (x * 4 + 1) 0) (data.getD (x * 4 + 2) 0) (data.getD (x * 4 + 3) 0))
    obtain ⟨g1, g2, g3, g4⟩ := huePixelStep_lengths opts acc (data.getD (x * 4) 0)
      (data.getD (x * 4 + 1) 0) (data.getD (x * 4 + 2) 0) (data.getD (x * 4 + 3) 0)
    exact ⟨h1.trans g1, h2.trans g2, h3.trans g3, h4.trans g4⟩

/-- Amended claim C1: `extractHueHistogram` performs no validation of the
buffer shape; for every buffer, width and height it returns a complete
`HueHistogram` whose four sequences have length 360 — a mismatched buffer is
never rejected (the browser's `ImageData` constructor enforces the shape
upstream of this function). -/
theorem c1_amended_no_validation (data : List ℕ) (width height : ℕ)
    (opts : ExtractHueHistogramOptions) :
    (extractHueHistogram data width height opts).buckets.length = 360 ∧
    (extractHueHistogram data width height opts).chromaSum.length = 360 ∧
    (extractHueHistogram data width height opts).lightnessSum.length = 360 ∧
    (extractHueHistogram data width height opts).counts.length = 360 := by
  obtain ⟨h1, h2, h3, h4⟩ :=
    histFold_lengths data opts (List.range (width * height)) histAccInit
  exact ⟨h1.trans (List.length_replicate 360 0), h2.trans (List.length_replicate 360 0),
    h3.trans (List.length_replicate 360 0), h4.trans (List.length_replicate 360 0)⟩

/-- Counterexample to claim C1: a 1-by-1 image with an 8-byte buffer (length
8, not 1 * 1 * 4 = 4, and every performed read in bounds).  The call does not
fail: it returns the complete all-zero histogram (the single scanned pixel is
transparent), rather than raising an `InputShapeError`. -/
theorem c1_counterexample_no_failfast :
    ([0, 0, 0, 0, 9, 9, 9, 9] : List ℕ).length ≠ 1 * 1 * 4 ∧
    extractHueHistogram [0, 0, 0, 0, 9, 9, 9, 9] 1 1 defaultHistOptions =
      ⟨List.replicate 360 0, List.replicate 360 0, List.replicate 360 0,
       List.replicate 360 0, 0, 0⟩ := by
  constructor
  · decide
  · show (⟨List.replicate 360 0, List.replicate 360 0, List.replicate 360 0,
      List.replicate 360 0, listMax (List.replicate 360 (0 : ℝ)), 0⟩ : HueHistogram) = _
    rw [listMax_replicate_zero]

/-- Amended claim C2 (true for the hue-histogram.ts variant): for every pixel
that passes the alpha cutoff and lies inside the lightness window, the builder
step accumulates `chromaSum[bucket] += C`, `lightnessSum[bucket] += L` and
`counts[bucket] += 1` unconditionally — no chroma hypothesis is needed, the
chroma threshold only influences the weight written into `buckets` (via
`smoothstep`).  In the src/unnamed/part_000 variant this fails: its chroma gate
skips the pixel before any accumulation (see the counterexample). -/
theorem c2_amended_unconditional_accumulation (opts : ExtractHueHistogramOptions)
    (acc : HistAcc) (r g b a : ℕ) (ha : 200 ≤ a)
    (hl1 : opts.lightnessMargin ≤ (rgbToOklch r g b).1)
    (hl2 : (rgbToOklch r g b).1 ≤ 1 - opts.lightnessMargin) :
    (huePixelStep opts acc r g b a).chromaSum =
      acc.chromaSum.set ((⌊(rgbToOklch r g b).2.2⌋).toNat % 360)
        (acc.chromaSum.getD ((⌊(rgbToOklch r g b).2.2⌋).toNat % 360) 0 +
          (rgbToOklch r g b).2.1) ∧
    (huePixelStep opts acc r g b a).lightnessSum =
      acc.lightnessSum.set ((⌊(rgbToOklch r g b).2.2⌋).toNat % 360)
        (acc.lightnessSum.getD ((⌊(rgbToOklch r g b).2.2⌋).toNat % 360) 0 +
          (rgbToOklch r g b).1) ∧
    (huePixelStep opts acc r g b a).counts =
      acc.counts.set ((⌊(rgbToOklch r g b).2.2⌋).toNat % 360)
        (acc.counts.getD ((⌊(rgbToOklch r g b).2.2⌋).toNat % 360) 0 + 1) := by
  rw [huePixelStep, if_neg (by omega), if_neg (by push_neg; exact ⟨hl1, hl2⟩)]
  exact ⟨rfl, rfl, rfl⟩

/-- Witness for the amended C2 at a concrete pixel: an opaque black pixel
(chroma 0, which the weight mode down-weights to weight 0) is still counted
into `counts`, `chromaSum` and `lightnessSum` at bucket 0. -/
theorem c2_amended_unconditional_accumulation_witness :
    (huePixelStep defaultHistOptions histAccInit 0 0 0 255).counts =
      histAccInit.counts.set ((⌊(rgbToOklch 0 0 0).2.2⌋).toNat % 360)
        (histAccInit.counts.getD ((⌊(rgbToOklch 0 0 0).2.2⌋).toNat % 360) 0 + 1) := by
  have h := c2_amended_unconditional_accumulation defaultHistOptions histAccInit
    0 0 0 255 (by norm_num)
    (by simp only [Nat.cast_zero]; rw [rgbToOklch_black]; norm_num [defaultHistOptions])
    (by simp only [Nat.cast_zero]; rw [rgbToOklch_black]; norm_num [defaultHistOptions])
  have h2 := h.2.2
  simp only [Nat.cast_zero] at h2
  exact h2

/-- Counterexample to claim C2 as stated: in the src/unnamed/part_000 variant,
a fully opaque black pixel passes the alpha cutoff (255 is not below 200) and
its lightness 0 lies inside the default lightness window, yet the produced
histogram has every `counts` bucket equal to 0 — the pixel was excluded by the
chroma threshold before any accumulation, so it contributed to none of
`chromaSum`, `lightnessSum`, `counts`. -/
theorem c2_counterexample_chroma_gate_skips_accumulation :
    ¬ ((255 : ℕ) < 200) ∧
    defaultHistOptionsP0.lightnessMargin ≤ (rgbToOklch 0 0 0).1 ∧
    (rgbToOklch 0 0 0).1 ≤ 1 - defaultHistOptionsP0.lightnessMargin ∧
    (rgbToOklch 0 0 0).2.1 < defaultHistOptionsP0.minChroma ∧
    (extractHueHistogramP0 [0, 0, 0, 255] 1 1 defaultHistOptionsP0).counts =
      List.replicate 360 0 := by
  refine ⟨by norm_num, ?_, ?_, ?_, ?_⟩
  · rw [rgbToOklch_black]; norm_num [defaultHistOptionsP0]
  · rw [rgbToOklch_black]; norm_num [defaultHistOptionsP0]
  · rw [rgbToOklch_black]; norm_num [defaultHistOptionsP0]
  · have hstep : huePixelStepP0 defaultHistOptionsP0 histAccInit 0 0 0 255 = histAccInit := by
      rw [huePixelStepP0, if_neg (by norm_num)]
      rw [if_pos]
      simp only [Nat.cast_zero]
      rw [rgbToOklch_black]
      norm_num [defaultHistOptionsP0]
    show (huePixelStepP0 defaultHistOptionsP0 histAccInit 0 0 0 255).counts =
      List.replicate 360 0
    rw [hstep]
    rfl

lemma mem_insertByValueDesc {α : Type} [LinearOrderedField α] {p q : Peak α}
    {l : List (Peak α)} : q ∈ insertByValueDesc p l ↔ q = p ∨ q ∈ l := by
  induction l with
  | nil => simp [insertByValueDesc]
  | cons x xs ih =>
    rw [insertByValueDesc]
    by_cases h : p.value ≤ x.value
    · rw [if_pos h]
      simp only [List.mem_cons, ih]
      tauto
    · rw [if_neg h]
      simp only [List.mem_cons]

lemma mem_sortByValueDesc {α : Type} [LinearOrderedField α] {q : Peak α}
    {l : List (Peak α)} : q ∈ sortByValueDesc l ↔ q ∈ l := by
  induction l with
  | nil => simp [sortByValueDesc]
  | cons x xs ih =>
    rw [sortByValueDesc, mem_insertByValueDesc]
    simp [ih]

lemma pairwise_insertByValueDesc {α : Type} [LinearOrderedField α] (p : Peak α)
    (l : List (Peak α)) (h : l.Pairwise (fun a b => b.value ≤ a.value)) :
    (insertByValueDesc p l).Pairwise (fun a b => b.value ≤ a.value) := by
  induction l with
  | nil => simp [insertByValueDesc]
  | cons x xs ih =>
    rw [List.pairwise_cons] at h
    obtain ⟨hx, hxs⟩ := h
    rw [insertByValueDesc]
    by_cases hpx : p.value ≤ x.value
    · rw [if_pos hpx, List.pairwise_cons]
      refine ⟨?_, ih hxs⟩
      intro b hb
      rcases mem_insertByValueDesc.mp hb with rfl | hbxs
      · exact hpx
      · exact hx b hbxs
    · rw [if_neg hpx, List.pairwise_cons]
      refine ⟨?_, List.pairwise_cons.mpr ⟨hx, hxs⟩⟩
      intro b hb
      rcases List.mem_cons.mp hb with rfl | hbxs
      · exact le_of_lt (not_le.mp hpx)
      · exact le_trans (hx b hbxs) (le_of_lt (not_le.mp hpx))

lemma pairwise_sortByValueDesc {α : Type} [LinearOrderedField α]
    (l : List (Peak α)) :
    (sortByValueDesc l).Pairwise (fun a b => b.value ≤ a.value) := by
  induction l with
  | nil => simp [sortByValueDesc]
  | cons x xs ih => exact pairwise_insertByValueDesc x _ ih

/-- Helper: membership of an index in the detected peak list is exactly the
candidate test of the source. -/
lemma mem_detectPeaks_iff {α : Type} [LinearOrderedField α] (buckets : List α)
    (opts : DetectPeaksOptions α) (i : ℕ) (hi : i < buckets.length) :
    (∃ p ∈ detectPeaks buckets opts, p.index = i) ↔
      isPeakAt buckets opts.minHeight i := by
  simp only [detectPeaks]
  constructor
  · rintro ⟨p, hp, rfl⟩
    rw [mem_sortByValueDesc] at hp
    obtain ⟨q, hq, rfl⟩ := List.mem_map.mp hp
    obtain ⟨j, _, hqe⟩ := List.mem_filterMap.mp hq
    by_cases h : isPeakAt buckets opts.minHeight j
    · rw [if_pos h] at hqe
      cases Option.some.inj hqe
      exact h
    · rw [if_neg h] at hqe
      cases hqe
  · intro h
    refine ⟨⟨i, buckets.getD i 0, leftBoundary buckets i, rightBoundary buckets i⟩, ?_, rfl⟩
    rw [mem_sortByValueDesc]
    refine List.mem_map.mpr ⟨⟨i, buckets.getD i 0, i, i⟩, ?_, rfl⟩
    exact List.mem_filterMap.mpr ⟨i, List.mem_range.mpr hi, by rw [if_pos h]⟩

/-- Claim C6: on a 360-bucket histogram, detectPeaks returns a peak at bucket
i exactly when buckets[i] strictly exceeds both circular neighbours
buckets[(i-1) mod 360] and buckets[(i+1) mod 360] and reaches the non-strict
threshold max(buckets) * minHeight; and the returned list is ordered
descending by value. -/
theorem c6_peak_condition_and_order (buckets : List ℚ)
    (opts : DetectPeaksOptions ℚ) (hlen : buckets.length = 360) :
    (∀ i : ℕ, i < 360 →
      ((∃ p ∈ detectPeaks buckets opts, p.index = i) ↔
        (buckets.getD ((i + 359) % 360) 0 < buckets.getD i 0 ∧
         buckets.getD ((i + 1) % 360) 0 < buckets.getD i 0 ∧
         listMax buckets * opts.minHeight ≤ buckets.getD i 0))) ∧
    List.Pairwise (fun a b => b.value ≤ a.value) (detectPeaks buckets opts) := by
  constructor
  · intro i hi
    rw [mem_detectPeaks_iff buckets opts i (by omega)]
    unfold isPeakAt
    rw [hlen]
    have : (i + 360 - 1) % 360 = (i + 359) % 360 := by omega
    rw [this]
  · simp only [detectPeaks]
    exact pairwise_sortByValueDesc _

/-- Characterisation of the left-boundary scan: starting at step `i` with the
current left at distance `i - 1`, the scan returns the bucket at some outward
distance `a` below 180, the visited run up to `a` is strictly increasing
toward the peak, and (unless the half-ring bound ended the scan) the next
bucket outward fails the strict decrease — the first-stop rule. -/
lemma leftScanGo_spec (buckets : List ℚ) (index : ℕ)
    (hlen : buckets.length = 360) :
    ∀ fuel i, 1 ≤ i → i ≤ 180 → 181 ≤ i + fuel →
    (∀ j, 1 ≤ j → j < i →
      buckets.getD (leftIdx index j) 0 < buckets.getD (leftIdx index (j - 1)) 0) →
    ∃ a, a < 180 ∧
      leftScanGo buckets index fuel i (leftIdx index (i - 1)) = leftIdx index a ∧
      (∀ j, 1 ≤ j → j ≤ a →
        buckets.getD (leftIdx index j) 0 < buckets.getD (leftIdx index (j - 1)) 0) ∧
      (a + 1 < 180 →
        buckets.getD (leftIdx index a) 0 ≤ buckets.getD (leftIdx index (a + 1)) 0) := by
  intro fuel
  induction fuel with
  | zero => intro i h1 h180 hge _; omega
  | succ fuel ih =>
    intro i h1 h180 hge hhist
    simp only [leftScanGo, hlen]
    by_cases hloop : 2 * i < 360
    · rw [if_pos hloop]
      have hidx : (index + 360 - i) % 360 = leftIdx index i := rfl
      have hnext : (leftIdx index i + 1) % 360 = leftIdx index (i - 1) := by
        unfold leftIdx
        omega
      rw [hidx, hnext]
      by_cases hstop : buckets.getD (leftIdx index (i - 1)) 0 ≤ buckets.getD (leftIdx index i) 0
      · rw [if_pos hstop]
        refine ⟨i - 1, by omega, rfl, ?_, ?_⟩
        · intro j hj1 hj2
          exact hhist j hj1 (by omega)
        · intro _
          have : i - 1 + 1 = i := by omega
          rw [this]
          exact hstop
      · rw [if_neg hstop]
        have hstep : buckets.getD (leftIdx index i) 0 < buckets.getD (leftIdx index (i - 1)) 0 :=
          lt_of_not_le hstop
        have hcall : leftIdx index i = leftIdx index (i + 1 - 1) := by norm_num
        rw [hcall]
        refine ih (i + 1) (by omega) (by omega) (by omega) ?_
        intro j hj1 hj2
        rcases Nat.lt_or_ge j i with hji | hji
        · exact hhist j hj1 hji
        · have : j = i := by omega
          subst this
          exact hstep
    · rw [if_neg hloop]
      have hi : i = 180 := by omega
      subst hi
      refine ⟨179, by omega, rfl, ?_, by omega⟩
      intro j hj1 hj2
      exact hhist j hj1 (by omega)

/-- Characterisation of the right-boundary scan, mirror of
`leftScanGo_spec`. -/
lemma rightScanGo_spec (buckets : List ℚ) (index : ℕ)
    (hlen : buckets.length = 360) :
    ∀ fuel i, 1 ≤ i → i ≤ 180 → 181 ≤ i + fuel →
    (∀ j, 1 ≤ j → j < i →
      buckets.getD (rightIdx index j) 0 < buckets.getD (rightIdx index (j - 1)) 0) →
    ∃ b, b < 180 ∧
      rightScanGo buckets index fuel i (rightIdx index (i - 1)) = rightIdx index b ∧
      (∀ j, 1 ≤ j → j ≤ b →
        buckets.getD (rightIdx index j) 0 < buckets.getD (rightIdx index (j - 1)) 0) ∧
      (b + 1 < 180 →
        buckets.getD (rightIdx index b) 0 ≤ buckets.getD (rightIdx index (b + 1)) 0) := by
  intro fuel
  induction fuel with
  | zero => intro i h1 h180 hge _; omega
  | succ fuel ih =>
    intro i h1 h180 hge hhist
    simp only [rightScanGo, hlen]
    by_cases hloop : 2 * i < 360
    · rw [if_pos hloop]
      have hidx : (index + i) % 360 = rightIdx index i := rfl
      have hprev : (rightIdx index i + 360 - 1) % 360 = rightIdx index (i - 1) := by
        unfold rightIdx
        omega
      rw [hidx, hprev]
      by_cases hstop : buckets.getD (rightIdx index (i - 1)) 0 ≤ buckets.getD (rightIdx index i) 0
      · rw [if_pos hstop]
        refine ⟨i - 1, by omega, rfl, ?_, ?_⟩
        · intro j hj1 hj2
          exact hhist j hj1 (by omega)
        · intro _
          have : i - 1 + 1 = i := by omega
          rw [this]
          exact hstop
      · rw [if_neg hstop]
        have hstep : buckets.getD (rightIdx index i) 0 < buckets.getD (rightIdx index (i - 1)) 0 :=
          lt_of_not_le hstop
        have hcall : rightIdx index i = rightIdx index (i + 1 - 1) := by norm_num
        rw [hcall]
        refine ih (i + 1) (by omega) (by omega) (by omega) ?_
        intro j hj1 hj2
        rcases Nat.lt_or_ge j i with hji | hji
        · exact hhist j hj1 hji
        · have : j = i := by omega
          subst this
          exact hstep
    · rw [if_neg hloop]
      have hi : i = 180 := by omega
      subst hi
      refine ⟨179, by omega, rfl, ?_, by omega⟩
      intro j hj1 hj2
      exact hhist j hj1 (by omega)

lemma foldl_max_cases {α : Type} [LinearOrder α] (a : α) (t : List α) :
    t.foldl max a = a ∨ t.foldl max a ∈ t := by
  induction t generalizing a with
  | nil => exact Or.inl rfl
  | cons b bs ih =>
    simp only [List.foldl_cons]
    rcases ih (max a b) with h | h
    · rcases max_choice a b with he | he
      · rw [he] at h ⊢
        exact Or.inl h
      · rw [he] at h ⊢
        exact Or.inr (by rw [h]; exact List.mem_cons_self b bs)
    · exact Or.inr (List.mem_cons_of_mem b h)

lemma le_foldl_max {α : Type} [LinearOrder α] (a : α) (t : List α) :
    a ≤ t.foldl max a ∧ ∀ y ∈ t, y ≤ t.foldl max a := by
  induction t generalizing a with
  | nil => simp
  | cons b bs ih =>
    obtain ⟨h1, h2⟩ := ih (max a b)
    simp only [List.foldl_cons]
    refine ⟨le_trans (le_max_left a b) h1, ?_⟩
    intro y hy
    rcases List.mem_cons.mp hy with rfl | hy2
    · exact le_trans (le_max_right a _) h1
    · exact h2 y hy2

/-- The JS max of a non-empty list is the element that dominates the list. -/
lemma listMax_eq_of_mem {α : Type} [LinearOrder α] [Zero α] (l : List α) (x : α)
    (hmem : x ∈ l) (hall : ∀ y ∈ l, y ≤ x) : listMax l = x := by
  cases l with
  | nil => cases hmem
  | cons h t =>
    show t.foldl max h = x
    apply le_antisymm
    · rcases foldl_max_cases h t with he | he
      · rw [he]
        exact hall h (List.mem_cons_self h t)
      · exact hall _ (List.mem_cons_of_mem h he)
    · rcases List.mem_cons.mp hmem with rfl | hx
      · exact (le_foldl_max x t).1
      · exact (le_foldl_max h t).2 x hx

lemma getD_spikeBuckets (i : ℕ) (hi : i < 360) :
    spikeBuckets.getD i 0 = if i = 1 then 1 else 0 := by
  rw [spikeBuckets]
  exact getD_set_replicate 360 i 1 0 1 (by norm_num) hi

/-- The spike histogram's maximum is the spike height. -/
lemma listMax_spikeBuckets : listMax spikeBuckets = 1 := by
  apply listMax_eq_of_mem
  · have hlen : spikeBuckets.length = 360 := by
      rw [spikeBuckets, List.length_set]
      exact List.length_replicate 360 0
    have h1 : spikeBuckets.getD 1 0 = 1 := by
      rw [getD_spikeBuckets 1 (by norm_num)]
      exact if_pos rfl
    rw [List.getD_eq_getElem _ _ (by rw [hlen]; norm_num)] at h1
    exact h1 ▸ List.getElem_mem _
  · intro y hy
    rcases List.mem_or_eq_of_mem_set hy with hy2 | rfl
    · rw [List.eq_of_mem_replicate hy2]
      norm_num
    · exact le_refl 1


/-- The spike histogram has a candidate peak at bucket 1. -/
lemma isPeakAt_spike : isPeakAt spikeBuckets (0.1 : ℚ) 1 := by
  have hlen : spikeBuckets.length = 360 := by
    rw [spikeBuckets, List.length_set]
    exact List.length_replicate 360 0
  unfold isPeakAt
  rw [hlen, listMax_spikeBuckets]
  rw [show (1 + 360 - 1) % 360 = 0 from by norm_num, show (1 + 1) % 360 = 2 from by norm_num]
  rw [getD_spikeBuckets 0 (by norm_num), getD_spikeBuckets 1 (by norm_num),
    getD_spikeBuckets 2 (by norm_num)]
  norm_num

/-- Claim C5: every peak returned by detectPeaks on a 360-bucket histogram has
boundaries found by scanning outward from the index at most half the ring
(strictly fewer than 180 steps each way); the scan stops one step back toward
the peak at the first position where the farther bucket's value is not smaller
than its closer neighbour (the visited run is strictly decreasing outward, and
— unless the half-ring bound ended the scan — the next bucket outward fails
the strict decrease); consequently the arc from left to right (with
wraparound when right is less than left) always contains the peak's index. -/
theorem c5_boundary_scan (buckets : List ℚ) (opts : DetectPeaksOptions ℚ)
    (hlen : buckets.length = 360) (p : Peak ℚ) (hp : p ∈ detectPeaks buckets opts) :
    ∃ a b : ℕ, a < 180 ∧ b < 180 ∧
      p.left = leftIdx p.index a ∧ p.right = rightIdx p.index b ∧
      (∀ j, 1 ≤ j → j ≤ a →
        buckets.getD (leftIdx p.index j) 0 < buckets.getD (leftIdx p.index (j - 1)) 0) ∧
      (a + 1 < 180 →
        buckets.getD (leftIdx p.index a) 0 ≤ buckets.getD (leftIdx p.index (a + 1)) 0) ∧
      (∀ j, 1 ≤ j → j ≤ b →
        buckets.getD (rightIdx p.index j) 0 < buckets.getD (rightIdx p.index (j - 1)) 0) ∧
      (b + 1 < 180 →
        buckets.getD (rightIdx p.index b) 0 ≤ buckets.getD (rightIdx p.index (b + 1)) 0) ∧
      arcContains p p.index := by
  simp only [detectPeaks] at hp
  rw [mem_sortByValueDesc] at hp
  obtain ⟨q, hq, rfl⟩ := List.mem_map.mp hp
  obtain ⟨j, hjr, hje⟩ := List.mem_filterMap.mp hq
  rw [List.mem_range, hlen] at hjr
  by_cases hpk : isPeakAt buckets opts.minHeight j
  · rw [if_pos hpk] at hje
    cases Option.some.inj hje
    obtain ⟨a, ha, haeq, hadec, hastop⟩ :=
      leftScanGo_spec buckets j hlen 360 1 (by norm_num) (by norm_num) (by norm_num)
        (by intro j hj1 hj2; omega)
    obtain ⟨b, hb, hbeq, hbdec, hbstop⟩ :=
      rightScanGo_spec buckets j hlen 360 1 (by norm_num) (by norm_num) (by norm_num)
        (by intro j hj1 hj2; omega)
    rw [show (1 : ℕ) - 1 = 0 from rfl, show leftIdx j 0 = j from by unfold leftIdx; omega]
      at haeq
    rw [show (1 : ℕ) - 1 = 0 from rfl, show rightIdx j 0 = j from by unfold rightIdx; omega]
      at hbeq
    have hleft : leftBoundary buckets j = leftIdx j a := by
      rw [leftBoundary, hlen]
      exact haeq
    have hright : rightBoundary buckets j = rightIdx j b := by
      rw [rightBoundary, hlen]
      exact hbeq
    refine ⟨a, b, ha, hb, hleft, hright, hadec, hastop, hbdec, hbstop, ?_⟩
    show ((j + 360 - leftBoundary buckets j) % 360 ≤
      (rightBoundary buckets j + 360 - leftBoundary buckets j) % 360)
    rw [hleft, hright]
    unfold leftIdx rightIdx
    omega
  · rw [if_neg hpk] at hje
    cases hje

set_option maxRecDepth 8000 in
/-- Witness for C5 on concrete data: the spike histogram has a peak, and the
theorem's boundary characterisation holds for it. -/
theorem c5_boundary_scan_witness :
    ∃ p ∈ detectPeaks spikeBuckets (⟨0.1⟩ : DetectPeaksOptions ℚ),
      ∃ a b : ℕ, a < 180 ∧ b < 180 ∧
        p.left = leftIdx p.index a ∧ p.right = rightIdx p.index b ∧
        (∀ j, 1 ≤ j → j ≤ a →
          spikeBuckets.getD (leftIdx p.index j) 0 <
            spikeBuckets.getD (leftIdx p.index (j - 1)) 0) ∧
        (a + 1 < 180 →
          spikeBuckets.getD (leftIdx p.index a) 0 ≤
            spikeBuckets.getD (leftIdx p.index (a + 1)) 0) ∧
        (∀ j, 1 ≤ j → j ≤ b →
          spikeBuckets.getD (rightIdx p.index j) 0 <
            spikeBuckets.getD (rightIdx p.index (j - 1)) 0) ∧
        (b + 1 < 180 →
          spikeBuckets.getD (rightIdx p.index b) 0 ≤
            spikeBuckets.getD (rightIdx p.index (b + 1)) 0) ∧
        arcContains p p.index := by
  have hlen : spikeBuckets.length = 360 := by
    rw [spikeBuckets, List.length_set]
    exact List.length_replicate 360 0
  obtain ⟨p, hp, -⟩ :=
    (mem_detectPeaks_iff spikeBuckets ⟨0.1⟩ 1 (by rw [hlen]; norm_num)).mpr isPeakAt_spike
  exact ⟨p, hp, c5_boundary_scan spikeBuckets ⟨0.1⟩ hlen p hp⟩

/-- Witness for C6: the peak-membership characterisation and descending order
instantiated on the concrete spike histogram. -/
theorem c6_peak_condition_and_order_witness :
    (∀ i : ℕ, i < 360 →
      ((∃ p ∈ detectPeaks spikeBuckets (⟨0.1⟩ : DetectPeaksOptions ℚ), p.index = i) ↔
        (spikeBuckets.getD ((i + 359) % 360) 0 < spikeBuckets.getD i 0 ∧
         spikeBuckets.getD ((i + 1) % 360) 0 < spikeBuckets.getD i 0 ∧
         listMax spikeBuckets * (⟨0.1⟩ : DetectPeaksOptions ℚ).minHeight ≤
           spikeBuckets.getD i 0))) ∧
    List.Pairwise (fun a b => b.value ≤ a.value)
      (detectPeaks spikeBuckets (⟨0.1⟩ : DetectPeaksOptions ℚ)) :=
  c6_peak_condition_and_order spikeBuckets ⟨0.1⟩
    (by rw [spikeBuckets, List.length_set]; exact List.length_replicate 360 0)

/-- JS atan2 recovers the angle of a positively scaled unit vector for angles
in the open right half-plane. -/
lemma atan2_cos_sin_smul (θ w : ℝ) (hw : 0 < w) (hθ1 : -(π / 2) < θ)
    (hθ2 : θ < π / 2) : atan2 (Real.sin θ * w) (Real.cos θ * w) = θ := by
  have hc : 0 < Real.cos θ := Real.cos_pos_of_mem_Ioo ⟨hθ1, hθ2⟩
  have hx : 0 < Real.cos θ * w := mul_pos hc hw
  rw [atan2, if_pos hx]
  have hdiv : Real.sin θ * w / (Real.cos θ * w) = Real.tan θ := by
    rw [Real.tan_eq_sin_div_cos]
    field_simp
    ring
  rw [hdiv]
  exact Real.arctan_tan hθ1 hθ2

/-- A bucket with no sampled pixels contributes nothing in average mode. -/
lemma avgStep_skip (hist : HueHistogram) (sm : List ℝ) (minV : ℝ) (acc : AvgAcc)
    (idx : ℕ) (h : hist.counts.getD idx 0 = 0) :
    avgStep hist sm minV acc idx = acc := by
  simp only [avgStep]
  rw [if_pos h]

/-- A run of zero-count buckets leaves the average accumulator unchanged. -/
lemma foldl_avgStep_skips (hist : HueHistogram) (sm : List ℝ) (minV : ℝ)
    (l : List ℕ) (acc : AvgAcc) (h : ∀ i ∈ l, hist.counts.getD i 0 = 0) :
    l.foldl (avgStep hist sm minV) acc = acc := by
  induction l generalizing acc with
  | nil => rfl
  | cons x xs ih =>
    rw [List.foldl_cons, avgStep_skip hist sm minV acc x (h x (List.mem_cons_self x xs))]
    exact ih acc (fun i hi => h i (List.mem_cons_of_mem x hi))

/-- Core computation for average mode with a single contributing bucket: when
exactly one bucket `b` of the peak's arc has sampled pixels (and it passes the
threshold), the circular mean collapses to the angle of that single bucket and
the resolved hue is exactly `b`. -/
lemma extractPeakColors_single_contributor (hist : HueHistogram) (sm : List ℝ)
    (opts : ExtractPeakColorsOptions) (p : Peak ℝ) (b : ℕ) (l1 l2 : List ℕ)
    (hmode : opts.mode = ColorMode.average)
    (hmax : 1 ≤ opts.maxColors)
    (hidx : getPeakIndices p = l1 ++ b :: l2)
    (h1 : ∀ i ∈ l1, hist.counts.getD i 0 = 0)
    (h2 : ∀ i ∈ l2, hist.counts.getD i 0 = 0)
    (hcount : ¬ hist.counts.getD b 0 = 0)
    (hval : 0 < sm.getD b 0)
    (hthr : sm.getD p.index 0 * opts.threshold ≤ sm.getD b 0)
    (hb : b < 90) :
    (extractPeakColors hist [p] sm opts).map (fun pc => pc.hue) = [(b : ℝ)] := by
  have hbr : (b : ℝ) < 90 := by exact_mod_cast hb
  have hθ1 : -(π / 2) < (b : ℝ) * π / 180 := by
    have h0 : (0 : ℝ) ≤ (b : ℝ) * π / 180 := by positivity
    nlinarith [Real.pi_pos]
  have hθ2 : (b : ℝ) * π / 180 < π / 2 := by nlinarith [Real.pi_pos]
  have hfold :
      (getPeakIndices p).foldl (avgStep hist sm (sm.getD p.index 0 * opts.threshold))
        ⟨0, 0, 0, 0, 0⟩ =
      (⟨0 + sm.getD b 0,
        0 + Real.cos ((b : ℝ) * π / 180) * sm.getD b 0,
        0 + Real.sin ((b : ℝ) * π / 180) * sm.getD b 0,
        0 + hist.chromaSum.getD b 0 / (hist.counts.getD b 0 : ℝ) * sm.getD b 0,
        0 + hist.lightnessSum.getD b 0 / (hist.counts.getD b 0 : ℝ) * sm.getD b 0⟩ :
        AvgAcc) := by
    rw [hidx, List.foldl_append, foldl_avgStep_skips _ _ _ l1 _ h1, List.foldl_cons,
      foldl_avgStep_skips _ _ _ l2 _ h2]
    simp only [avgStep]
    rw [if_neg hcount, if_neg (not_lt.mpr hthr)]
  have hw : ¬ (0 + sm.getD b 0 ≤ 0) := by push_neg; positivity
  have hatan : atan2 (0 + Real.sin ((b : ℝ) * π / 180) * sm.getD b 0)
      (0 + Real.cos ((b : ℝ) * π / 180) * sm.getD b 0) = (b : ℝ) * π / 180 := by
    rw [zero_add, zero_add]
    exact atan2_cos_sin_smul _ _ hval hθ1 hθ2
  have hdeg : (b : ℝ) * π / 180 * (180 / π) = (b : ℝ) := by
    field_simp
  have hres : resolvePeakColor hist sm opts p =
      some (mkPeakColor (b : ℝ)
        ((0 + hist.chromaSum.getD b 0 / (hist.counts.getD b 0 : ℝ) * sm.getD b 0) /
          (0 + sm.getD b 0))
        ((0 + hist.lightnessSum.getD b 0 / (hist.counts.getD b 0 : ℝ) * sm.getD b 0) /
          (0 + sm.getD b 0))
        (calculatePeakWeight sm p) p) := by
    simp only [resolvePeakColor, hmode, hfold]
    rw [if_neg hw, hatan, hdeg, if_neg (not_lt.mpr (Nat.cast_nonneg b))]
  have hresults : ([p].filterMap (resolvePeakColor hist sm opts)) =
      [mkPeakColor (b : ℝ)
        ((0 + hist.chromaSum.getD b 0 / (hist.counts.getD b 0 : ℝ) * sm.getD b 0) /
          (0 + sm.getD b 0))
        ((0 + hist.lightnessSum.getD b 0 / (hist.counts.getD b 0 : ℝ) * sm.getD b 0) /
          (0 + sm.getD b 0))
        (calculatePeakWeight sm p) p] := by
    rw [List.filterMap_cons, hres]
    rfl
  simp only [extractPeakColors, hresults]
  rw [show sortByWeightDesc [mkPeakColor (b : ℝ)
        ((0 + hist.chromaSum.getD b 0 / (hist.counts.getD b 0 : ℝ) * sm.getD b 0) /
          (0 + sm.getD b 0))
        ((0 + hist.lightnessSum.getD b 0 / (hist.counts.getD b 0 : ℝ) * sm.getD b 0) /
          (0 + sm.getD b 0))
        (calculatePeakWeight sm p) p] = [mkPeakColor (b : ℝ)
        ((0 + hist.chromaSum.getD b 0 / (hist.counts.getD b 0 : ℝ) * sm.getD b 0) /
          (0 + sm.getD b 0))
        ((0 + hist.lightnessSum.getD b 0 / (hist.counts.getD b 0 : ℝ) * sm.getD b 0) /
          (0 + sm.getD b 0))
        (calculatePeakWeight sm p) p] from rfl]
  rw [filterByDistance, if_pos (Or.inr (by norm_num))]
  obtain ⟨m, hm⟩ : ∃ m, opts.maxColors = m + 1 := ⟨opts.maxColors - 1, by omega⟩
  rw [hm]
  simp only [List.take_succ_cons, List.take_nil, List.map_cons, List.map_nil]
  simp [mkPeakColor]

/-- Amended claim C4: in average mode the returned hue is the smoothed-value
weighted circular mean of only those arc buckets that carry sampled pixels and
pass the threshold; when a single bucket `b` contributes, the hue equals `b`
exactly.  Such a bucket can sit anywhere in the arc — as far as the full arc
width from `peak.index` — so the circular distance from the hue to the peak's
index is bounded only by the arc width, not by half of it (the counterexample
reaches the full width). -/
theorem c4_amended_single_contributor_hue (hist : HueHistogram) (sm : List ℝ)
    (opts : ExtractPeakColorsOptions) (p : Peak ℝ) (b : ℕ) (l1 l2 : List ℕ)
    (hmode : opts.mode = ColorMode.average)
    (hmax : 1 ≤ opts.maxColors)
    (hidx : getPeakIndices p = l1 ++ b :: l2)
    (h1 : ∀ i ∈ l1, hist.counts.getD i 0 = 0)
    (h2 : ∀ i ∈ l2, hist.counts.getD i 0 = 0)
    (hcount : ¬ hist.counts.getD b 0 = 0)
    (hval : 0 < sm.getD b 0)
    (hthr : sm.getD p.index 0 * opts.threshold ≤ sm.getD b 0)
    (hb : b < 90) :
    (extractPeakColors hist [p] sm opts).map (fun pc => pc.hue) = [(b : ℝ)] :=
  extractPeakColors_single_contributor hist sm opts p b l1 l2 hmode hmax hidx h1 h2
    hcount hval hthr hb

/-- Witness for the amended C4 on the concrete data: the arc 0..10 with a
single sampled bucket at 10 resolves to hue 10. -/
theorem c4_amended_single_contributor_hue_witness :
    (extractPeakColors histC4 [peakC4] smoothC4 optsC4).map (fun pc => pc.hue) =
      [((10 : ℕ) : ℝ)] := by
  have hmax5 : 1 ≤ optsC4.maxColors := by norm_num [optsC4]
  refine c4_amended_single_contributor_hue histC4 smoothC4 optsC4 peakC4 10
    [0, 1, 2, 3, 4, 5, 6, 7, 8, 9] [] rfl hmax5 rfl ?_ ?_ ?_ ?_ ?_ (by norm_num)
  · intro i hi
    fin_cases hi <;> decide
  · intro i hi
    cases hi
  · decide
  · show 0 < smoothC4.getD 10 0
    rw [smoothC4, getD_set_replicate 360 10 10 (0 : ℝ) 1 (by norm_num) (by norm_num)]
    norm_num
  · show smoothC4.getD peakC4.index 0 * optsC4.threshold ≤ smoothC4.getD 10 0
    rw [show peakC4.index = 0 from rfl, smoothC4,
      getD_set_replicate 360 0 10 (0 : ℝ) 1 (by norm_num) (by norm_num),
      getD_set_replicate 360 10 10 (0 : ℝ) 1 (by norm_num) (by norm_num)]
    norm_num [optsC4]

/-- Counterexample to claim C4 as stated: with the arc from left 0 to right 10
and the only sampled bucket at 10, the resolved average-mode hue is 10, whose
circular distance to the peak's index 0 is 10 — strictly more than half the
arc width (10 / 2 = 5). -/
theorem c4_counterexample_hue_beyond_half_arc :
    (extractPeakColors histC4 [peakC4] smoothC4 optsC4).map (fun pc => pc.hue) =
      [((10 : ℕ) : ℝ)] ∧
    peakC4.index = 0 ∧ peakC4.left = 0 ∧ peakC4.right = 10 ∧ arcWidth peakC4 = 10 ∧
    ¬ (circHueDist ((10 : ℕ) : ℝ) (peakC4.index : ℝ) ≤ (arcWidth peakC4 : ℝ) / 2) := by
  refine ⟨?_, rfl, rfl, rfl, by decide, ?_⟩
  · have hmax5 : 1 ≤ optsC4.maxColors := by norm_num [optsC4]
    have hb90 : (10 : ℕ) < 90 := by norm_num
    refine extractPeakColors_single_contributor histC4 smoothC4 optsC4 peakC4 10
      [0, 1, 2, 3, 4, 5, 6, 7, 8, 9] [] rfl hmax5 rfl ?_ ?_ ?_ ?_ ?_ hb90
    · intro i hi
      fin_cases hi <;> decide
    · intro i hi
      cases hi
    · decide
    · show 0 < smoothC4.getD 10 0
      rw [smoothC4, getD_set_replicate 360 10 10 (0 : ℝ) 1 (by norm_num) (by norm_num)]
      norm_num
    · show smoothC4.getD peakC4.index 0 * optsC4.threshold ≤ smoothC4.getD 10 0
      rw [show peakC4.index = 0 from rfl, smoothC4,
        getD_set_replicate 360 0 10 (0 : ℝ) 1 (by norm_num) (by norm_num),
        getD_set_replicate 360 10 10 (0 : ℝ) 1 (by norm_num) (by norm_num)]
      norm_num [optsC4]
  · show ¬ (circHueDist ((10 : ℕ) : ℝ) ((0 : ℕ) : ℝ) ≤ ((10 : ℕ) : ℝ) / 2)
    unfold circHueDist
    push_cast
    rw [show |(10 : ℝ) - 0| = 10 from by norm_num]
    norm_num

lemma sqrt_le_of_sq (x c : ℝ) (hc : 0 ≤ c) (h : x ≤ c ^ 2) : Real.sqrt x ≤ c := by
  calc Real.sqrt x ≤ Real.sqrt (c ^ 2) := Real.sqrt_le_sqrt h
    _ = c := by rw [Real.sqrt_sq hc]

lemma le_sqrt_of_sq (c x : ℝ) (hc : 0 ≤ c) (h : c ^ 2 ≤ x) : c ≤ Real.sqrt x := by
  calc c = Real.sqrt (c ^ 2) := by rw [Real.sqrt_sq hc]
    _ ≤ Real.sqrt x := Real.sqrt_le_sqrt h

lemma sqrt_lt_of_sq_lt (x c : ℝ) (hc : 0 < c) (h : x < c ^ 2) : Real.sqrt x < c := by
  rcases le_or_lt x 0 with hx | hx
  · have h0 : Real.sqrt x = 0 := Real.sqrt_eq_zero_of_nonpos hx
    rw [h0]
    exact hc
  · have hlt : Real.sqrt x < Real.sqrt (c ^ 2) := Real.sqrt_lt_sqrt (le_of_lt hx) h
    rwa [Real.sqrt_sq (le_of_lt hc)] at hlt

lemma labChroma_nonneg (a b : ℝ) : 0 ≤ labChroma a b := Real.sqrt_nonneg _

lemma labChroma_zero : labChroma 0 0 = 0 := by
  simp [labChroma]

lemma labChroma_le (a b A B : ℝ) (ha : |a| ≤ A) (hb : |b| ≤ B) :
    labChroma a b ≤ A + B := by
  have hA : 0 ≤ A := (abs_nonneg a).trans ha
  have hB : 0 ≤ B := (abs_nonneg b).trans hb
  apply sqrt_le_of_sq _ _ (by linarith)
  nlinarith [sq_abs a, sq_abs b, abs_nonneg a, abs_nonneg b]

lemma de2kG_bounds (Cavg : ℝ) (h : 0 ≤ Cavg) :
    0 ≤ de2kG Cavg ∧ de2kG Cavg ≤ 1 / 2 := by
  have hden : (0 : ℝ) < Cavg ^ 7 + 25 ^ 7 := by positivity
  have hratio1 : Cavg ^ 7 / (Cavg ^ 7 + 25 ^ 7) ≤ 1 := by
    rw [div_le_one hden]
    nlinarith
  have hratio0 : 0 ≤ Cavg ^ 7 / (Cavg ^ 7 + 25 ^ 7) := by positivity
  have hs0 : 0 ≤ Real.sqrt (Cavg ^ 7 / (Cavg ^ 7 + 25 ^ 7)) := Real.sqrt_nonneg _
  have hs1 : Real.sqrt (Cavg ^ 7 / (Cavg ^ 7 + 25 ^ 7)) ≤ 1 :=
    sqrt_le_of_sq _ _ (by norm_num) (by nlinarith)
  constructor
  · rw [de2kG]
    nlinarith
  · rw [de2kG]
    nlinarith

lemma de2kT_bounds (hp : ℝ) : 0.07 ≤ de2kT hp ∧ de2kT hp ≤ 1.93 := by
  have h1 := Real.neg_one_le_cos ((hp - 30) * (π / 180))
  have h2 := Real.cos_le_one ((hp - 30) * (π / 180))
  have h3 := Real.neg_one_le_cos (2 * hp * (π / 180))
  have h4 := Real.cos_le_one (2 * hp * (π / 180))
  have h5 := Real.neg_one_le_cos ((3 * hp + 6) * (π / 180))
  have h6 := Real.cos_le_one ((3 * hp + 6) * (π / 180))
  have h7 := Real.neg_one_le_cos ((4 * hp - 63) * (π / 180))
  have h8 := Real.cos_le_one ((4 * hp - 63) * (π / 180))
  constructor <;> (rw [de2kT]; nlinarith)

lemma de2kDhp_zero_left (x h1 h2 : ℝ) : de2kDhp 0 x h1 h2 = 0 := by
  simp [de2kDhp]

lemma le_rpow_third (x lo : ℝ) (hx : 0 ≤ x) (hlo : 0 ≤ lo) (h : lo ^ 3 ≤ x) :
    lo ≤ x ^ ((1 : ℝ) / 3) := by
  by_contra hcon
  push_neg at hcon
  have h3 : x < lo ^ 3 := by
    have := pow_lt_pow_left hcon (Real.rpow_nonneg hx _) (by norm_num : (3 : ℕ) ≠ 0)
    rwa [← Real.rpow_natCast (x ^ ((1 : ℝ) / 3)) 3, ← Real.rpow_mul hx,
      show ((1 : ℝ) / 3) * (3 : ℕ) = 1 from by norm_num, Real.rpow_one] at this
  linarith

lemma rpow_third_le (x hi : ℝ) (hx : 0 ≤ x) (hhi : 0 ≤ hi) (h : x ≤ hi ^ 3) :
    x ^ ((1 : ℝ) / 3) ≤ hi := by
  by_contra hcon
  push_neg at hcon
  have h3 : hi ^ 3 < x := by
    have := pow_lt_pow_left hcon hhi (by norm_num : (3 : ℕ) ≠ 0)
    rwa [← Real.rpow_natCast (x ^ ((1 : ℝ) / 3)) 3, ← Real.rpow_mul hx,
      show ((1 : ℝ) / 3) * (3 : ℕ) = 1 from by norm_num, Real.rpow_one] at this
  linarith

/-- Round trip through the forward sRGB gamma of extract-peak-colors.ts and
the inverse gamma of its `srgbToXyz`: for linear channel values comfortably
inside the power-law branch the clamp does not bite and the composition is the
identity. -/
lemma srgb_gamma_roundtrip (q : ℝ) (h1 : 1 / 250 ≤ q) (h2 : q ≤ 1) :
    srgbChannelToLinear (max 0 (min 1 (linearToSrgb q))) = q := by
  have hq0 : (0 : ℝ) ≤ q := le_trans (by norm_num) h1
  have hbr : ¬ (q ≤ 0.0031308) := by
    push_neg
    calc (0.0031308 : ℝ) < 1 / 250 := by norm_num
      _ ≤ q := h1
  rw [linearToSrgb, if_neg hbr]
  have ht0 : 0 ≤ q ^ ((1 : ℝ) / 2.4) := Real.rpow_nonneg hq0 _
  have ht1 : q ^ ((1 : ℝ) / 2.4) ≤ 1 := Real.rpow_le_one hq0 h2 (by norm_num)
  have htlow : (1909 : ℝ) / 21100 < q ^ ((1 : ℝ) / 2.4) := by
    have hmono : ((1 : ℝ) / 250) ^ ((1 : ℝ) / 2.4) ≤ q ^ ((1 : ℝ) / 2.4) :=
      Real.rpow_le_rpow (by norm_num) h1 (by norm_num)
    have hlow : (1909 : ℝ) / 21100 < ((1 : ℝ) / 250) ^ ((1 : ℝ) / 2.4) := by
      by_contra hcon
      push_neg at hcon
      have h12 : (((1 : ℝ) / 250) ^ ((1 : ℝ) / 2.4)) ^ (12 : ℕ) ≤
          ((1909 : ℝ) / 21100) ^ (12 : ℕ) :=
        pow_le_pow_left (Real.rpow_nonneg (by norm_num) _) hcon 12
      rw [← Real.rpow_natCast (((1 : ℝ) / 250) ^ ((1 : ℝ) / 2.4)) 12,
        ← Real.rpow_mul (by norm_num),
        show ((1 : ℝ) / 2.4) * ((12 : ℕ) : ℝ) = 5 from by norm_num] at h12
      rw [show ((5 : ℝ)) = ((5 : ℕ) : ℝ) from by norm_num,
        Real.rpow_natCast] at h12
      norm_num at h12
    linarith
  have hvle : 1.055 * q ^ ((1 : ℝ) / 2.4) - 0.055 ≤ 1 := by nlinarith
  have hvgt : (0.04045 : ℝ) < 1.055 * q ^ ((1 : ℝ) / 2.4) - 0.055 := by nlinarith
  have hvge0 : (0 : ℝ) ≤ 1.055 * q ^ ((1 : ℝ) / 2.4) - 0.055 := by linarith
  rw [min_eq_right hvle, max_eq_right hvge0]
  rw [srgbChannelToLinear, if_neg (not_le.mpr hvgt)]
  rw [show 1.055 * q ^ ((1 : ℝ) / 2.4) - 0.055 + 0.055 = 1.055 * q ^ ((1 : ℝ) / 2.4) from
    by ring]
  rw [show (1.055 : ℝ) * q ^ ((1 : ℝ) / 2.4) / 1.055 = q ^ ((1 : ℝ) / 2.4) from by ring]
  rw [← Real.rpow_mul hq0, show ((1 : ℝ) / 2.4) * 2.4 = 1 from by norm_num, Real.rpow_one]

/-- The Lab image of OKLCH black `(L,C,H) = (0,0,0)`: every stage is exactly
zero and the Lab point is the origin. -/
lemma oklchToLab_black : oklchToLab 0 0 0 = (0, 0, 0) := by
  have e1 : linearToSrgb 0 = 0 := by
    rw [linearToSrgb, if_pos (by norm_num)]
    norm_num
  have e2 : srgbChannelToLinear 0 = 0 := by
    rw [srgbChannelToLinear, if_pos (by norm_num)]
    norm_num
  have e3 : labF 0 = 16 / 116 := by
    rw [labF, if_neg (by norm_num)]
    norm_num
  simp only [oklchToLab, oklchToSrgb, srgbToXyz, xyzToLab]
  rw [show (0 : ℝ) * π / 180 = 0 from by ring, Real.cos_zero, Real.sin_zero]
  norm_num [e1, e2, e3]

/-- Bounds on the Lab image of OKLCH white `(1, 0, 0)`: the pipeline saturates
every sRGB channel at 1 and the resulting Lab point is within a hair of
`(100, 0, 0)` (the tiny offset comes from the Y row of the sRGB matrix summing
to 1.0000001). -/
lemma oklchToLab_white_bounds :
    100 ≤ (oklchToLab 1 0 0).1 ∧ (oklchToLab 1 0 0).1 ≤ 100.1 ∧
    |(oklchToLab 1 0 0).2.1| ≤ 0.0001 ∧ |(oklchToLab 1 0 0).2.2| ≤ 0.0001 := by
  have e1 : linearToSrgb 1 = 1 := by
    rw [linearToSrgb, if_neg (by norm_num)]
    rw [Real.one_rpow]
    norm_num
  have e2 : srgbChannelToLinear 1 = 1 := by
    rw [srgbChannelToLinear, if_neg (by norm_num)]
    rw [show ((1 : ℝ) + 0.055) / 1.055 = 1 from by norm_num, Real.one_rpow]
  have e3 : labF 1 = 1 := by
    rw [labF, if_pos (by norm_num), cbrt, if_neg (by norm_num), Real.one_rpow]
  have hy0 : (0 : ℝ) ≤ (10000001 : ℝ) / 10000000 := by norm_num
  have ht1 : (1 : ℝ) ≤ ((10000001 : ℝ) / 10000000) ^ ((1 : ℝ) / 3) :=
    le_rpow_third _ _ hy0 (by norm_num) (by norm_num)
  have ht2 : ((10000001 : ℝ) / 10000000) ^ ((1 : ℝ) / 3) ≤ (10000001 : ℝ) / 10000000 :=
    rpow_third_le _ _ hy0 (by norm_num) (by norm_num)
  have e4 : labF ((10000001 : ℝ) / 10000000) =
      ((10000001 : ℝ) / 10000000) ^ ((1 : ℝ) / 3) := by
    rw [labF, if_pos (by norm_num), cbrt, if_neg (by norm_num)]
  simp only [oklchToLab, oklchToSrgb, srgbToXyz, xyzToLab]
  rw [show (0 : ℝ) * π / 180 = 0 from by ring, Real.cos_zero, Real.sin_zero]
  norm_num [e1, e2, e3, e4]
  refine ⟨by nlinarith, by nlinarith, ?_, ?_⟩
  · rw [abs_le]
    constructor <;> nlinarith
  · rw [abs_le]
    constructor <;> nlinarith

lemma labF_bounds (t lo hi : ℝ) (ht : 0.008856 < t) (hlo : 0 ≤ lo)
    (hhi : 0 ≤ hi) (h1 : lo ^ 3 ≤ t) (h2 : t ≤ hi ^ 3) :
    lo ≤ labF t ∧ labF t ≤ hi := by
  rw [labF, if_pos ht, cbrt, if_neg (by push_neg; linarith)]
  exact ⟨le_rpow_third _ _ (by linarith) hlo h1, rpow_third_le _ _ (by linarith) hhi h2⟩

set_option maxHeartbeats 2000000 in
/-- Bounds on the Lab image of the mid colour OKLCH `(0.58, 0.01, 90)`: all
three linear channels stay strictly inside the power-law branch, the gamma
round-trips exactly, and the Lab point lies near `(51.3, -0.34, 3.8)`. -/
lemma oklchToLab_mid_bounds :
    51.2 ≤ (oklchToLab 0.58 0.01 90).1 ∧ (oklchToLab 0.58 0.01 90).1 ≤ 51.4 ∧
    |(oklchToLab 0.58 0.01 90).2.1| ≤ 0.5 ∧ |(oklchToLab 0.58 0.01 90).2.2| ≤ 4 := by
  have hch : oklchToSrgb 0.58 0.01 90 =
      (max 0 (min 1 (linearToSrgb (4.0767416621 * 0.582158037573 ^ 3 -
          3.3077115913 * 0.579361458272 ^ 3 + 0.2309699292 * 0.56708514452 ^ 3))),
       max 0 (min 1 (linearToSrgb (-1.2684380046 * 0.582158037573 ^ 3 +
          2.6097574011 * 0.579361458272 ^ 3 - 0.3413193965 * 0.56708514452 ^ 3))),
       max 0 (min 1 (linearToSrgb (-0.0041960863 * 0.582158037573 ^ 3 -
          0.7034186147 * 0.579361458272 ^ 3 + 1.707614701 * 0.56708514452 ^ 3)))) := by
    simp only [oklchToSrgb]
    rw [show (90 : ℝ) * π / 180 = π / 2 from by ring, Real.cos_pi_div_two,
      Real.sin_pi_div_two]
    norm_num
  have hrr : srgbChannelToLinear (max 0 (min 1 (linearToSrgb (4.0767416621 *
      0.582158037573 ^ 3 - 3.3077115913 * 0.579361458272 ^ 3 +
      0.2309699292 * 0.56708514452 ^ 3)))) = 4.0767416621 * 0.582158037573 ^ 3 -
      3.3077115913 * 0.579361458272 ^ 3 + 0.2309699292 * 0.56708514452 ^ 3 :=
    srgb_gamma_roundtrip _ (by norm_num) (by norm_num)
  have hgg : srgbChannelToLinear (max 0 (min 1 (linearToSrgb (-1.2684380046 *
      0.582158037573 ^ 3 + 2.6097574011 * 0.579361458272 ^ 3 -
      0.3413193965 * 0.56708514452 ^ 3)))) = -1.2684380046 * 0.582158037573 ^ 3 +
      2.6097574011 * 0.579361458272 ^ 3 - 0.3413193965 * 0.56708514452 ^ 3 :=
    srgb_gamma_roundtrip _ (by norm_num) (by norm_num)
  have hbb : srgbChannelToLinear (max 0 (min 1 (linearToSrgb (-0.0041960863 *
      0.582158037573 ^ 3 - 0.7034186147 * 0.579361458272 ^ 3 +
      1.707614701 * 0.56708514452 ^ 3)))) = -0.0041960863 * 0.582158037573 ^ 3 -
      0.7034186147 * 0.579361458272 ^ 3 + 1.707614701 * 0.56708514452 ^ 3 :=
    srgb_gamma_roundtrip _ (by norm_num) (by norm_num)
  simp only [oklchToLab, hch, srgbToXyz, hrr, hgg, hbb, xyzToLab]
  have hfx := labF_bounds ((0.4124564 * (4.0767416621 * 0.582158037573 ^ 3 - 3.3077115913 * 0.579361458272 ^ 3 + 0.2309699292 * 0.56708514452 ^ 3) + 0.3575761 * (-1.2684380046 * 0.582158037573 ^ 3 + 2.6097574011 * 0.579361458272 ^ 3 - 0.3413193965 * 0.56708514452 ^ 3) + 0.1804375 * (-0.0041960863 * 0.582158037573 ^ 3 - 0.7034186147 * 0.579361458272 ^ 3 + 1.707614701 * 0.56708514452 ^ 3)) / 0.95047) 0.5793 0.5795 (by norm_num) (by norm_num)
    (by norm_num) (by norm_num) (by norm_num)
  have hfy := labF_bounds ((0.2126729 * (4.0767416621 * 0.582158037573 ^ 3 - 3.3077115913 * 0.579361458272 ^ 3 + 0.2309699292 * 0.56708514452 ^ 3) + 0.7151522 * (-1.2684380046 * 0.582158037573 ^ 3 + 2.6097574011 * 0.579361458272 ^ 3 - 0.3413193965 * 0.56708514452 ^ 3) + 0.072175 * (-0.0041960863 * 0.582158037573 ^ 3 - 0.7034186147 * 0.579361458272 ^ 3 + 1.707614701 * 0.56708514452 ^ 3)) / 1.0) 0.58 0.5802 (by norm_num) (by norm_num)
    (by norm_num) (by norm_num) (by norm_num)
  have hfz := labF_bounds ((0.0193339 * (4.0767416621 * 0.582158037573 ^ 3 - 3.3077115913 * 0.579361458272 ^ 3 + 0.2309699292 * 0.56708514452 ^ 3) + 0.119192 * (-1.2684380046 * 0.582158037573 ^ 3 + 2.6097574011 * 0.579361458272 ^ 3 - 0.3413193965 * 0.56708514452 ^ 3) + 0.9503041 * (-0.0041960863 * 0.582158037573 ^ 3 - 0.7034186147 * 0.579361458272 ^ 3 + 1.707614701 * 0.56708514452 ^ 3)) / 1.08883) 0.5609 0.5612 (by norm_num) (by norm_num)
    (by norm_num) (by norm_num) (by norm_num)
  refine ⟨by linarith [hfy.1, hfy.2], by linarith [hfy.1, hfy.2], ?_, ?_⟩
  · rw [abs_le]
    constructor <;> linarith [hfx.1, hfx.2, hfy.1, hfy.2]
  · rw [abs_le]
    constructor <;> linarith [hfy.1, hfy.2, hfz.1, hfz.2]


set_option maxHeartbeats 2000000 in
/-- Master upper bound for the CIEDE2000 distance: with the mean-lightness
square confined to a window, both Lab points' components bounded, and the
resulting crude bound below the target squared, the distance stays below the
target.  The hue terms are controlled only through the absolute bounds on the
sine and cosine factors, so no precision about the angles is needed. -/
lemma deltaE2000_lt_of_bounds (L1 a1 b1 L2 a2 b2 dL A1 B1 A2 B2 m M s Zb T : ℝ)
    (hdL : |L2 - L1| ≤ dL)
    (hm0 : 0 ≤ m)
    (hm : m ≤ ((L1 + L2) / 2 - 50) ^ 2) (hM : ((L1 + L2) / 2 - 50) ^ 2 ≤ M)
    (hs0 : 0 < s) (hs : Real.sqrt (20 + M) ≤ s)
    (ha1 : |a1| ≤ A1) (hb1 : |b1| ≤ B1) (ha2 : |a2| ≤ A2) (hb2 : |b2| ≤ B2)
    (hZb0 : 0 ≤ Zb) (hZ : Real.sqrt ((1.5 * A1 + B1) * (1.5 * A2 + B2)) ≤ Zb)
    (hT : 0 < T)
    (hub : (dL / (1 + 0.015 * m / s)) ^ 2 + (1.5 * A1 + B1 + (1.5 * A2 + B2)) ^ 2 +
      (2 * Zb) ^ 2 + 2 * (1.5 * A1 + B1 + (1.5 * A2 + B2)) * (2 * Zb) < T ^ 2) :
    deltaE2000 L1 a1 b1 L2 a2 b2 < T := by
  have hA1 : 0 ≤ A1 := (abs_nonneg a1).trans ha1
  have hB1 : 0 ≤ B1 := (abs_nonneg b1).trans hb1
  have hA2 : 0 ≤ A2 := (abs_nonneg a2).trans ha2
  have hB2 : 0 ≤ B2 := (abs_nonneg b2).trans hb2
  have hdL0 : 0 ≤ dL := (abs_nonneg _).trans hdL
  delta deltaE2000
  lift_lets
  extract_lets C1 C2 Cavg G a1p a2p C1p C2p h1p h2p dLp dCp dhp dHp Lp Cpv
    hpb Tb dTheta RC SL SC SH RT
  simp only [one_mul]
  have hC1e : C1 = labChroma a1 b1 := rfl
  have hC2e : C2 = labChroma a2 b2 := rfl
  have hCavge : Cavg = (C1 + C2) / 2 := rfl
  have hGe : G = de2kG Cavg := rfl
  have ha1pe : a1p = a1 * (1 + G) := rfl
  have ha2pe : a2p = a2 * (1 + G) := rfl
  have hC1pe : C1p = labChroma a1p b1 := rfl
  have hC2pe : C2p = labChroma a2p b2 := rfl
  have hdLpe : dLp = L2 - L1 := rfl
  have hdCpe : dCp = C2p - C1p := rfl
  have hdHpe : dHp = 2 * Real.sqrt (C1p * C2p) * Real.sin (dhp / 2 * (π / 180)) := rfl
  have hLpe : Lp = (L1 + L2) / 2 := rfl
  have hCpe : Cpv = (C1p + C2p) / 2 := rfl
  have hTbe : Tb = de2kT hpb := rfl
  have hRCe : RC = 2 * Real.sqrt (Cpv ^ 7 / (Cpv ^ 7 + 25 ^ 7)) := rfl
  have hSLe : SL = 1 + 0.015 * (Lp - 50) ^ 2 / Real.sqrt (20 + (Lp - 50) ^ 2) := rfl
  have hSCe : SC = 1 + 0.045 * Cpv := rfl
  have hSHe : SH = 1 + 0.015 * Cpv * Tb := rfl
  have hRTe : RT = -Real.sin (2 * dTheta * (π / 180)) * RC := rfl
  clear_value C1 C2 Cavg G a1p a2p C1p C2p h1p h2p dLp dCp dhp dHp Lp Cpv
    hpb Tb dTheta RC SL SC SH RT
  -- component bounds
  have hCavg0 : 0 ≤ Cavg := by
    have h1 := labChroma_nonneg a1 b1
    have h2 := labChroma_nonneg a2 b2
    rw [hCavge, hC1e, hC2e]; linarith
  have hGb := de2kG_bounds Cavg hCavg0
  rw [← hGe] at hGb
  obtain ⟨hG0, hG12⟩ := hGb
  have hC1p0 : 0 ≤ C1p := hC1pe ▸ labChroma_nonneg _ _
  have hC2p0 : 0 ≤ C2p := hC2pe ▸ labChroma_nonneg _ _
  have ha1pb : |a1p| ≤ 1.5 * A1 := by
    rw [ha1pe, abs_mul, abs_of_nonneg (by linarith : (0:ℝ) ≤ 1 + G)]
    calc |a1| * (1 + G) ≤ A1 * 1.5 :=
          mul_le_mul ha1 (by linarith) (by linarith) hA1
      _ = 1.5 * A1 := by ring
  have ha2pb : |a2p| ≤ 1.5 * A2 := by
    rw [ha2pe, abs_mul, abs_of_nonneg (by linarith : (0:ℝ) ≤ 1 + G)]
    calc |a2| * (1 + G) ≤ A2 * 1.5 :=
          mul_le_mul ha2 (by linarith) (by linarith) hA2
      _ = 1.5 * A2 := by ring
  have hC1ple : C1p ≤ 1.5 * A1 + B1 := by
    rw [hC1pe]; exact labChroma_le _ _ _ _ ha1pb hb1
  have hC2ple : C2p ≤ 1.5 * A2 + B2 := by
    rw [hC2pe]; exact labChroma_le _ _ _ _ ha2pb hb2
  have hCp0 : 0 ≤ Cpv := by rw [hCpe]; linarith
  have hTb_bounds := de2kT_bounds hpb
  rw [← hTbe] at hTb_bounds
  obtain ⟨hTb1, hTb2⟩ := hTb_bounds
  -- weighting-factor bounds
  have hsqr_pos : 0 < Real.sqrt (20 + (Lp - 50) ^ 2) := by
    apply Real.sqrt_pos.mpr
    linarith [sq_nonneg (Lp - 50)]
  have hSL1 : 1 ≤ SL := by
    rw [hSLe]
    have h0 : 0 ≤ 0.015 * (Lp - 50) ^ 2 / Real.sqrt (20 + (Lp - 50) ^ 2) := by
      have := sq_nonneg (Lp - 50)
      positivity
    linarith
  have hSLlow : 1 + 0.015 * m / s ≤ SL := by
    rw [hSLe]
    have hwin : (Lp - 50) ^ 2 = ((L1 + L2) / 2 - 50) ^ 2 := by rw [hLpe]
    have hsqr_le : Real.sqrt (20 + (Lp - 50) ^ 2) ≤ s := by
      rw [hwin]
      exact le_trans (Real.sqrt_le_sqrt (by linarith)) hs
    have hdiv : 0.015 * m / s ≤ 0.015 * (Lp - 50) ^ 2 /
        Real.sqrt (20 + (Lp - 50) ^ 2) := by
      apply div_le_div _ _ hsqr_pos hsqr_le
      · positivity
      · rw [hwin]; linarith
    linarith
  have hSLpos : 0 < SL := lt_of_lt_of_le one_pos hSL1
  have hSC1 : 1 ≤ SC := by rw [hSCe]; linarith
  have hSH1 : 1 ≤ SH := by
    rw [hSHe]
    have h0 : 0 ≤ Cpv * Tb := mul_nonneg hCp0 (by linarith)
    linarith
  have hRC2 : RC ≤ 2 := by
    rw [hRCe]
    have hden : (0 : ℝ) < Cpv ^ 7 + 25 ^ 7 := by positivity
    have h1 : Real.sqrt (Cpv ^ 7 / (Cpv ^ 7 + 25 ^ 7)) ≤ 1 := by
      apply sqrt_le_of_sq _ _ (by norm_num)
      rw [one_pow, div_le_one hden]
      have h25 : (0:ℝ) < 25 ^ 7 := by norm_num
      linarith
    linarith
  have hRC0 : 0 ≤ RC := by rw [hRCe]; positivity
  have hRT2 : |RT| ≤ 2 := by
    rw [hRTe, abs_mul, abs_neg]
    calc |Real.sin (2 * dTheta * (π / 180))| * |RC| ≤ 1 * |RC| :=
          mul_le_mul_of_nonneg_right (Real.abs_sin_le_one _) (abs_nonneg _)
      _ = RC := by rw [one_mul, abs_of_nonneg hRC0]
      _ ≤ 2 := hRC2
  -- the three difference quotients
  have hX : |dLp / SL| ≤ dL / (1 + 0.015 * m / s) := by
    rw [abs_div, abs_of_nonneg (le_of_lt hSLpos), hdLpe]
    have hden : (0 : ℝ) < 1 + 0.015 * m / s := by positivity
    exact div_le_div hdL0 hdL hden hSLlow
  have hdCpb : |dCp| ≤ 1.5 * A1 + B1 + (1.5 * A2 + B2) := by
    rw [hdCpe, abs_le]
    constructor <;> linarith
  have hY : |dCp / SC| ≤ 1.5 * A1 + B1 + (1.5 * A2 + B2) := by
    rw [abs_div, abs_of_nonneg (by linarith : (0:ℝ) ≤ SC)]
    calc |dCp| / SC ≤ |dCp| / 1 := div_le_div (abs_nonneg _) (le_refl _) one_pos hSC1
      _ = |dCp| := by rw [div_one]
      _ ≤ _ := hdCpb
  have hdHpb : |dHp| ≤ 2 * Zb := by
    rw [hdHpe, abs_mul, abs_mul]
    have hsq : Real.sqrt (C1p * C2p) ≤ Zb := by
      calc Real.sqrt (C1p * C2p) ≤ Real.sqrt ((1.5 * A1 + B1) * (1.5 * A2 + B2)) :=
            Real.sqrt_le_sqrt
              (mul_le_mul hC1ple hC2ple hC2p0 (by linarith))
        _ ≤ Zb := hZ
    have hsq0 : 0 ≤ Real.sqrt (C1p * C2p) := Real.sqrt_nonneg _
    calc |(2:ℝ)| * |Real.sqrt (C1p * C2p)| * |Real.sin (dhp / 2 * (π / 180))| ≤
          2 * Zb * 1 := by
          apply mul_le_mul _ (Real.abs_sin_le_one _) (abs_nonneg _) (by positivity)
          apply mul_le_mul (by norm_num) _ (abs_nonneg _) (by norm_num)
          rw [abs_of_nonneg hsq0]
          exact hsq
      _ = 2 * Zb := by ring
  have hZq : |dHp / SH| ≤ 2 * Zb := by
    rw [abs_div, abs_of_nonneg (by linarith : (0:ℝ) ≤ SH)]
    calc |dHp| / SH ≤ |dHp| / 1 := div_le_div (abs_nonneg _) (le_refl _) one_pos hSH1
      _ = |dHp| := by rw [div_one]
      _ ≤ 2 * Zb := hdHpb
  -- assemble
  apply sqrt_lt_of_sq_lt _ _ hT
  have hXsq : (dLp / SL) ^ 2 ≤ (dL / (1 + 0.015 * m / s)) ^ 2 := by
    rw [← sq_abs]
    exact pow_le_pow_left (abs_nonneg _) hX 2
  have hYsq : (dCp / SC) ^ 2 ≤ (1.5 * A1 + B1 + (1.5 * A2 + B2)) ^ 2 := by
    rw [← sq_abs]
    exact pow_le_pow_left (abs_nonneg _) hY 2
  have hZsq : (dHp / SH) ^ 2 ≤ (2 * Zb) ^ 2 := by
    rw [← sq_abs]
    exact pow_le_pow_left (abs_nonneg _) hZq 2
  have hRTterm : RT * (dCp / SC) * (dHp / SH) ≤
      2 * (1.5 * A1 + B1 + (1.5 * A2 + B2)) * (2 * Zb) := by
    calc RT * (dCp / SC) * (dHp / SH) ≤ |RT * (dCp / SC) * (dHp / SH)| := le_abs_self _
      _ = |RT| * |dCp / SC| * |dHp / SH| := by rw [abs_mul, abs_mul]
      _ ≤ 2 * (1.5 * A1 + B1 + (1.5 * A2 + B2)) * (2 * Zb) := by
          apply mul_le_mul _ hZq (abs_nonneg _) (by positivity)
          apply mul_le_mul hRT2 hY (abs_nonneg _) (by norm_num)
  linarith

set_option maxHeartbeats 2000000 in
/-- Lower bound on the CIEDE2000 distance from Lab black `(0,0,0)`: the first
point's chroma is exactly zero, so the hue and rotation terms vanish, and a
second point with lightness near 100 keeps the lightness quotient above 99
because the lightness weight `SL` stays below `1.01` on this window. -/
lemma deltaE2000_ge_fifty_black (L2 a2 b2 : ℝ)
    (hL : 100 ≤ L2) (hL2 : L2 ≤ 100.1) :
    50 ≤ deltaE2000 0 0 0 L2 a2 b2 := by
  delta deltaE2000
  lift_lets
  extract_lets C1 C2 Cavg G a1p a2p C1p C2p h1p h2p dLp dCp dhp dHp Lp Cpv
    hpb Tb dTheta RC SL SC SH RT
  have ha1pe : a1p = 0 * (1 + G) := rfl
  have hC1pe : C1p = labChroma a1p 0 := rfl
  have hdLpe : dLp = L2 - 0 := rfl
  have hdCpe : dCp = C2p - C1p := rfl
  have hdHpe : dHp = 2 * Real.sqrt (C1p * C2p) * Real.sin (dhp / 2 * (π / 180)) := rfl
  have hLpe : Lp = (0 + L2) / 2 := rfl
  have hSLe : SL = 1 + 0.015 * (Lp - 50) ^ 2 / Real.sqrt (20 + (Lp - 50) ^ 2) := rfl
  clear_value C1 C2 Cavg G a1p a2p C1p C2p h1p h2p dLp dCp dhp dHp Lp Cpv
    hpb Tb dTheta RC SL SC SH RT
  have hC1pz : C1p = 0 := by
    rw [hC1pe, ha1pe, zero_mul]
    exact labChroma_zero
  have hdHpz : dHp = 0 := by
    rw [hdHpe, hC1pz, zero_mul, Real.sqrt_zero, mul_zero, zero_mul]
  have hdLpz : dLp = L2 := by rw [hdLpe, sub_zero]
  have hdCpz : dCp = C2p := by rw [hdCpe, hC1pz, sub_zero]
  -- the lightness weight stays in [1, 1.01] on this window
  have hu1 : (Lp - 50) ^ 2 ≤ 0.0025 := by
    rw [hLpe]
    have hx0 : 0 ≤ (0 + L2) / 2 - 50 := by linarith
    have hx5 : (0 + L2) / 2 - 50 ≤ 0.05 := by linarith
    nlinarith [mul_nonneg hx0 (by linarith : (0:ℝ) ≤ 0.05 - ((0 + L2) / 2 - 50))]
  have hs4 : 4 ≤ Real.sqrt (20 + (Lp - 50) ^ 2) :=
    le_sqrt_of_sq _ _ (by norm_num) (by nlinarith [sq_nonneg (Lp - 50)])
  have hSLhi : SL ≤ 1.01 := by
    rw [hSLe]
    have hdiv : 0.015 * (Lp - 50) ^ 2 / Real.sqrt (20 + (Lp - 50) ^ 2) ≤
        0.015 * 0.0025 / 4 :=
      div_le_div (by norm_num) (by linarith) (by norm_num) hs4
    linarith
  have hSL1 : 1 ≤ SL := by
    rw [hSLe]
    have h0 : 0 ≤ 0.015 * (Lp - 50) ^ 2 / Real.sqrt (20 + (Lp - 50) ^ 2) := by
      have := sq_nonneg (Lp - 50)
      positivity
    linarith
  have hSLpos : 0 < SL := lt_of_lt_of_le one_pos hSL1
  -- reduce the goal to the two surviving quadratic terms
  rw [hdHpz, hdLpz, hdCpz]
  have hz : (0:ℝ) / (1 * SH) = 0 := zero_div _
  rw [hz]
  have hz2 : ((0:ℝ)) ^ 2 = 0 := by norm_num
  rw [hz2, mul_zero, add_zero, add_zero]
  simp only [one_mul]
  apply le_sqrt_of_sq _ _ (by norm_num)
  have hX : 99 ≤ L2 / SL := by
    have h1 : 100 / 1.01 ≤ L2 / SL := div_le_div (by linarith) hL hSLpos hSLhi
    have h2 : (99:ℝ) ≤ 100 / 1.01 := by norm_num
    linarith
  have hXsq : (99:ℝ) ^ 2 ≤ (L2 / SL) ^ 2 := pow_le_pow_left (by norm_num) hX 2
  have hY := sq_nonneg (C2p / SC)
  nlinarith [hXsq, hY]

/-- Black and white resolved colours are at CIEDE2000 distance at least 50. -/
lemma colorDistance_B_A_far : ¬ colorDistance colB colA < 50 := by
  have e : colorDistance colB colA =
      deltaE2000 (oklchToLab 0 0 0).1 (oklchToLab 0 0 0).2.1 (oklchToLab 0 0 0).2.2
        (oklchToLab 1 0 0).1 (oklchToLab 1 0 0).2.1 (oklchToLab 1 0 0).2.2 := rfl
  obtain ⟨hA1, hA2, _, _⟩ := oklchToLab_white_bounds
  rw [e, oklchToLab_black]
  push_neg
  exact deltaE2000_ge_fifty_black _ _ _ hA1 hA2

set_option maxHeartbeats 1000000 in
/-- The muted green and white resolved colours are at CIEDE2000 distance
below 50. -/
lemma colorDistance_C_A_close : colorDistance colC colA < 50 := by
  have e : colorDistance colC colA =
      deltaE2000 (oklchToLab 0.58 0.01 90).1 (oklchToLab 0.58 0.01 90).2.1
        (oklchToLab 0.58 0.01 90).2.2
        (oklchToLab 1 0 0).1 (oklchToLab 1 0 0).2.1 (oklchToLab 1 0 0).2.2 := rfl
  obtain ⟨hA1, hA2, hA3, hA4⟩ := oklchToLab_white_bounds
  obtain ⟨hC1, hC2, hC3, hC4⟩ := oklchToLab_mid_bounds
  rw [e]
  refine deltaE2000_lt_of_bounds _ _ _ _ _ _ 48.9 0.5 4 0.0001 0.0001 655 664 26.2
    0.041 50 ?_ ?_ ?_ ?_ ?_ ?_ ?_ ?_ ?_ ?_ ?_ ?_ ?_ ?_
  · exact abs_le.mpr ⟨by linarith, by linarith⟩
  · norm_num
  · have hx : (25.6:ℝ) ≤ ((oklchToLab 0.58 0.01 90).1 + (oklchToLab 1 0 0).1) / 2 - 50 :=
      by linarith
    nlinarith [hx, sq_nonneg (((oklchToLab 0.58 0.01 90).1 + (oklchToLab 1 0 0).1) / 2 -
      50 - 25.6)]
  · have hx0 : (0:ℝ) ≤ ((oklchToLab 0.58 0.01 90).1 + (oklchToLab 1 0 0).1) / 2 - 50 :=
      by linarith
    have hx75 : ((oklchToLab 0.58 0.01 90).1 + (oklchToLab 1 0 0).1) / 2 - 50 ≤ 25.75 :=
      by linarith
    nlinarith [mul_nonneg hx0 (by linarith : (0:ℝ) ≤ 25.75 -
      (((oklchToLab 0.58 0.01 90).1 + (oklchToLab 1 0 0).1) / 2 - 50))]
  · norm_num
  · exact sqrt_le_of_sq _ _ (by norm_num) (by norm_num)
  · exact hC3
  · exact hC4
  · exact hA3
  · exact hA4
  · norm_num
  · exact sqrt_le_of_sq _ _ (by norm_num) (by norm_num)
  · norm_num
  · norm_num

set_option maxHeartbeats 1000000 in
/-- Black and the muted green resolved colours are at CIEDE2000 distance
below 50. -/
lemma colorDistance_B_C_close : colorDistance colB colC < 50 := by
  have e : colorDistance colB colC =
      deltaE2000 (oklchToLab 0 0 0).1 (oklchToLab 0 0 0).2.1 (oklchToLab 0 0 0).2.2
        (oklchToLab 0.58 0.01 90).1 (oklchToLab 0.58 0.01 90).2.1
        (oklchToLab 0.58 0.01 90).2.2 := rfl
  obtain ⟨hC1, hC2, hC3, hC4⟩ := oklchToLab_mid_bounds
  rw [e, oklchToLab_black]
  show deltaE2000 0 0 0 (oklchToLab 0.58 0.01 90).1 (oklchToLab 0.58 0.01 90).2.1
    (oklchToLab 0.58 0.01 90).2.2 < 50
  refine deltaE2000_lt_of_bounds _ _ _ _ _ _ 51.4 0 0 0.5 4 590 596 24.82
    0 50 ?_ ?_ ?_ ?_ ?_ ?_ ?_ ?_ ?_ ?_ ?_ ?_ ?_ ?_
  · exact abs_le.mpr ⟨by linarith, by linarith⟩
  · norm_num
  · have hx : (0 + (oklchToLab 0.58 0.01 90).1) / 2 - 50 ≤ -24.3 := by linarith
    nlinarith [hx, sq_nonneg ((0 + (oklchToLab 0.58 0.01 90).1) / 2 - 50 + 24.3)]
  · have hx1 : (-24.4:ℝ) ≤ (0 + (oklchToLab 0.58 0.01 90).1) / 2 - 50 := by linarith
    have hx2 : (0 + (oklchToLab 0.58 0.01 90).1) / 2 - 50 ≤ -24.3 := by linarith
    nlinarith [mul_nonneg (by linarith : (0:ℝ) ≤ 24.4 +
      ((0 + (oklchToLab 0.58 0.01 90).1) / 2 - 50))
      (by linarith : (0:ℝ) ≤ -((0 + (oklchToLab 0.58 0.01 90).1) / 2 - 50))]
  · norm_num
  · exact sqrt_le_of_sq _ _ (by norm_num) (by norm_num)
  · simp
  · simp
  · exact hC3
  · exact hC4
  · norm_num
  · rw [show ((1.5 * (0:ℝ) + 0) * (1.5 * 0.5 + 4)) = 0 from by norm_num, Real.sqrt_zero]
  · norm_num
  · norm_num

/-- Scanning black against accepted `[white]`: too far, so appended. -/
lemma filterScan_B_A : filterScan 50 colB [colA] = ScanOutcome.add := by
  simp only [filterScan]
  rw [if_neg colorDistance_B_A_far]

/-- Scanning the muted green against accepted `[white, black]`: close to white
and of strictly higher chroma, so white gets replaced at index 0. -/
lemma filterScan_C_AB : filterScan 50 colC [colA, colB] = ScanOutcome.replace 0 := by
  simp only [filterScan]
  rw [if_pos colorDistance_C_A_close,
    if_pos (show colA.chroma < colC.chroma by norm_num [colA, colC])]

/-- Scanning black against accepted `[muted green]`: close but of lower
chroma, so dropped. -/
lemma filterScan_B_C : filterScan 50 colB [colC] = ScanOutcome.drop := by
  simp only [filterScan]
  rw [if_pos colorDistance_B_C_close,
    if_neg (show ¬ colC.chroma < colB.chroma by norm_num [colB, colC])]

/-- First pass of the distance filter over `[white, black, green]`: white and
black are accepted, then the green replaces white. -/
lemma filterLoop_ABC : filterLoop 50 [] [colA, colB, colC] = [colC, colB] := by
  have s1 : filterScan 50 colA [] = ScanOutcome.add := rfl
  simp only [filterLoop, s1, filterScan_B_A, filterScan_C_AB, List.nil_append,
    List.cons_append, List.set]
  rfl

/-- Second pass of the distance filter over the first pass's output: black is
now within `minDistance` of the green and gets dropped. -/
lemma filterLoop_CB : filterLoop 50 [] [colC, colB] = [colC] := by
  have s4 : filterScan 50 colC [] = ScanOutcome.add := rfl
  simp only [filterLoop, s4, filterScan_B_C, List.nil_append]

/-- `filterByDistance` on the three-colour list. -/
lemma filterByDistance_ABC : filterByDistance [colA, colB, colC] 50 = [colC, colB] := by
  rw [filterByDistance, if_neg (by norm_num : ¬((50:ℝ) ≤ 0 ∨
    ([colA, colB, colC] : List PeakColor).length ≤ 1))]
  exact filterLoop_ABC

/-- `filterByDistance` on the first pass's output. -/
lemma filterByDistance_CB : filterByDistance [colC, colB] 50 = [colC] := by
  rw [filterByDistance, if_neg (by norm_num : ¬((50:ℝ) ≤ 0 ∨
    ([colC, colB] : List PeakColor).length ≤ 1))]
  exact filterLoop_CB

/-- C3 (counterexample): the distance-merge filter is not idempotent.  On
`[white, black, muted green]` with `minDistance = 50` the first pass keeps
`[green, black]` (the green replaces white, and black was accepted while white
was still the only comparison point), but a second pass drops black, which is
within 50 of the green. -/
theorem c3_counterexample_not_idempotent :
    filterByDistance (filterByDistance [colA, colB, colC] 50) 50 ≠
      filterByDistance [colA, colB, colC] 50 := by
  rw [filterByDistance_ABC, filterByDistance_CB]
  intro h
  have hlen := congrArg List.length h
  simp at hlen

/-- The inner scan appends the candidate whenever every accepted colour is at
least `minDistance` away. -/
lemma filterScan_add_of_far (d : ℝ) (color : PeakColor) (acc : List PeakColor)
    (h : ∀ c ∈ acc, ¬ colorDistance color c < d) :
    filterScan d color acc = ScanOutcome.add := by
  induction acc with
  | nil => rfl
  | cons c rest ih =>
    simp only [filterScan]
    rw [if_neg (h c (List.mem_cons_self c rest)),
      ih (fun x hx => h x (List.mem_cons_of_mem c hx))]

/-- When every later colour is at least `minDistance` from every earlier one
(and from everything already accepted), the outer loop appends them all. -/
lemma filterLoop_all_far (d : ℝ) :
    ∀ (rest acc : List PeakColor),
      (∀ y ∈ rest, ∀ x ∈ acc, ¬ colorDistance y x < d) →
      rest.Pairwise (fun x y => ¬ colorDistance y x < d) →
      filterLoop d acc rest = acc ++ rest := by
  intro rest
  induction rest with
  | nil =>
    intro acc _ _
    simp only [filterLoop, List.append_nil]
  | cons y rest ih =>
    intro acc hfar hpw
    rw [List.pairwise_cons] at hpw
    obtain ⟨hy, hpw'⟩ := hpw
    have hscan : filterScan d y acc = ScanOutcome.add :=
      filterScan_add_of_far d y acc
        (fun c hc => hfar y (List.mem_cons_self y rest) c hc)
    simp only [filterLoop, hscan]
    have h1 : ∀ z ∈ rest, ∀ x ∈ acc ++ [y], ¬ colorDistance z x < d := by
      intro z hz x hx
      rcases List.mem_append.mp hx with hx' | hx'
      · exact hfar z (List.mem_cons_of_mem y hz) x hx'
      · rw [List.mem_singleton] at hx'
        subst hx'
        exact hy z hz
    rw [ih (acc ++ [y]) h1 hpw']
    simp

/-- C3 (amended): the distance-merge filter returns its input unchanged when
all pairs of input colours are mutually at least `minDistance` apart (each
later colour against each earlier one, the order in which the greedy
first-match loop compares them).  Idempotence in general is refuted by the
counterexample: a replacement can move a colour close to an earlier accepted
one. -/
theorem c3_amended_identity_on_separated (cs : List PeakColor) (d : ℝ)
    (h : cs.Pairwise (fun x y => ¬ colorDistance y x < d)) :
    filterByDistance cs d = cs := by
  rw [filterByDistance]
  split_ifs with hcond
  · rfl
  · have hall := filterLoop_all_far d cs []
      (by intro y _ x hx; exact absurd hx (List.not_mem_nil x)) h
    simpa using hall

/-- Witness for the amended C3 theorem: white and black are at least 50
apart, so `filterByDistance` keeps `[white, black]` unchanged. -/
theorem c3_amended_identity_on_separated_witness :
    filterByDistance [colA, colB] 50 = [colA, colB] := by
  apply c3_amended_identity_on_separated
  refine List.pairwise_cons.mpr ⟨?_, by simp⟩
  intro y hy
  rw [List.mem_singleton] at hy
  subst hy
  exact colorDistance_B_A_far
